import Mathlib

/-!
cloudpan189-go: configuration store and rename command

A shallow embedding of `internal/config/pan_config.go` (the `PanConfig` store)
and `internal/command/rename.go` (`RunRename`).

Go pointers to user records are addresses into an explicit heap, so that the
aliasing between `UserList`, the cached `activeUser` and the records handed in
by callers is kept.  The elements of `UserList` are non-nil pointers, and the
nil slice is kept apart from the empty one.  Account IDs (`uint64`) are only
compared, so they are natural numbers.  The mutex `fileMu` is not modelled: the
operations run one at a time.

Remote calls, the JSON codec, the operating-system file calls and the path
utilities are parameters (records of functions); each record fixes the answers
of the collaborators during one operation, and consecutive operations may be
given different records.  For the round trip through the file the codec is
also given as a model of the JSON text form of the specification
(`MarshalIndent`, `UnmarshalData`, installed in a host by `jsonHost`).
-/

namespace PanConfigModel

/-- Address of a `PanUser` record (a non-nil `*PanUser`). -/
abbrev Ptr := Nat

/-- Session handle `*cloudpan.PanClient`; only its presence matters here. -/
abbrev PanClient := Nat

/-- Snapshot `cloudpan.FileEntity` of a directory, an external value. -/
abbrev FileEntity := Nat

/-- Modelled from the spec: the `PanUser` record type, declared in a file that
is not part of the sources. Section 3 lists its fields: numeric account ID,
account name, nickname, sex, web and app tokens, cached working directory and
its file entity, and the transient session handle (`none` is a nil handle). -/
structure PanUser where
  UID : Nat
  AccountName : String
  Nickname : String
  Sex : String
  WebToken : String
  AppToken : String
  Workdir : String
  WorkdirFileEntity : FileEntity
  panClient : Option PanClient
deriving DecidableEq, Repr

/-- The zero value `PanUser{}`. -/
def PanUser.zero : PanUser :=
  { UID := 0, AccountName := "", Nickname := "", Sex := "", WebToken := "",
    AppToken := "", Workdir := "", WorkdirFileEntity := 0, panClient := none }

/-- Modelled from the spec: the getter `PanUser.PanClient()`, declared with the
record type; it reads the transient session handle. -/
def PanUser.PanClient (u : PanUser) : Option PanClient := u.panClient

/-- The heap of user records. -/
abbrev Heap := Ptr → PanUser

/-- A `*PanUser` returned by the store: nil, the address of a record, or the
address of a freshly allocated zero record (`&PanUser{}`) that nothing else
refers to. -/
inductive UserRef where
  | null
  | record (p : Ptr)
  | placeholder
deriving DecidableEq, Repr

/-- Error values returned by the store. -/
inductive ConfigError where
  | ErrConfigFileNotExist
  | ErrConfigFileNoPermission
  | ErrConfigContentsParseError
  | userNotFound
  | io
deriving DecidableEq, Repr

/-- The `PanConfig` value together with the heap its pointers refer to and the
backing file.  `UserList = none` is the nil slice; `configFile = none` is the
nil handle and `some pos` an open handle at offset `pos`; `disk` is the content
of the file at `configFilePath` (a missing file is created empty on open). -/
structure PanConfig where
  ActiveUID : Nat
  UserList : Option (List Ptr)
  SaveDir : String
  configFilePath : String
  configFile : Option Nat
  activeUser : Option Ptr
  heap : Heap
  disk : List Nat

/-- Elements of a slice; ranging over the nil slice visits nothing. -/
def elems (l : Option (List Ptr)) : List Ptr := l.getD []

/-- The remote collaborators used while restoring a session. -/
structure Remote where
  /-- Call `SetupUserByCookie(webToken, appToken)`: `none` is a non-nil error,
  otherwise the session handle and nickname of the returned user. -/
  SetupUserByCookie : String → String → Option (Option PanClient × String)
  /-- Call `client.FileInfoByPath(path)`: `none` is a non-nil error. -/
  FileInfoByPath : Option PanClient → String → Option FileEntity
  /-- Call `cloudpan.NewFileEntityForRootDir()`. -/
  rootDir : FileEntity

/-- Body of the restore branch of `ActiveUser` for the record at `u`. -/
def restoreClient (env : Remote) (c : PanConfig) (u : Ptr) : UserRef × PanConfig :=
  match env.SetupUserByCookie (c.heap u).WebToken (c.heap u).AppToken with
  | none => (UserRef.null, c)
  | some (client, nick) =>
    let r1 : PanUser := { c.heap u with panClient := client, Nickname := nick }
    match env.FileInfoByPath r1.PanClient r1.Workdir with
    | none =>
      let r2 : PanUser := { r1 with Workdir := "/", WorkdirFileEntity := env.rootDir }
      (UserRef.record u, { c with heap := Function.update c.heap u r2 })
    | some fe =>
      let r2 : PanUser := { r1 with WorkdirFileEntity := fe }
      (UserRef.record u, { c with heap := Function.update c.heap u r2 })

/-- Embedding of `PanConfig.ActiveUser`. -/
def ActiveUser (env : Remote) (c : PanConfig) : UserRef × PanConfig :=
  match c.activeUser with
  | some p => (UserRef.record p, c)
  | none =>
    match c.UserList with
    | none => (UserRef.null, c)
    | some l =>
      match l.find? (fun u => (c.heap u).UID == c.ActiveUID) with
      | some u =>
        let c1 := { c with activeUser := some u }
        match (c1.heap u).PanClient with
        | none => restoreClient env c1 u
        | some _ => (UserRef.record u, c1)
      | none => (UserRef.placeholder, c)

/-- The four assignments of the update branch of `SetActiveUser`:
`u.Nickname`, `u.Sex`, `u.WebToken` and `u.AppToken` are taken from `user`. -/
def updateUserInfo (u user : PanUser) : PanUser :=
  { u with Nickname := user.Nickname, Sex := user.Sex,
           WebToken := user.WebToken, AppToken := user.AppToken }

/-- The loop and the insertion of `SetActiveUser`: the first record with the
account ID of `user` is updated, and `user` is appended when there is none. -/
def upsertUser (c : PanConfig) (user : Ptr) : PanConfig :=
  match (elems c.UserList).find? (fun u => (c.heap u).UID == (c.heap user).UID) with
  | some u =>
    { c with heap := Function.update c.heap u (updateUserInfo (c.heap u) (c.heap user)) }
  | none => { c with UserList := some (elems c.UserList ++ [user]) }

/-- Embedding of `PanConfig.SetActiveUser`. -/
def SetActiveUser (env : Remote) (c : PanConfig) (user : Ptr) : UserRef × PanConfig :=
  let c1 := upsertUser c user
  ActiveUser env { c1 with ActiveUID := (c1.heap user).UID, activeUser := none }

/-- Embedding of `PanConfig.NumLogins`. -/
def NumLogins (c : PanConfig) : Nat := (elems c.UserList).length

/-- Embedding of `PanConfig.SwitchUser`. -/
def SwitchUser (env : Remote) (c : PanConfig) (uid : Nat) (username : String) :
    Except ConfigError UserRef × PanConfig :=
  match (elems c.UserList).find?
      (fun u => (c.heap u).UID == uid || (c.heap u).AccountName == username) with
  | some u => let r := SetActiveUser env c u; (Except.ok r.1, r.2)
  | none => (Except.error ConfigError.userNotFound, c)

/-- Embedding of `PanConfig.DeleteUser`. -/
def DeleteUser (env : Remote) (c : PanConfig) (uid : Nat) :
    Except ConfigError Ptr × PanConfig :=
  match (elems c.UserList).findIdx? (fun u => (c.heap u).UID == uid) with
  | some idx =>
    let l := elems c.UserList
    let rest := l.take idx ++ l.drop (idx + 1)
    let c1 := { c with UserList := some rest, ActiveUID := 0, activeUser := none }
    let c2 := match rest with
      | first :: _ => (SwitchUser env c1 (c1.heap first).UID "").2
      | [] => c1
    (Except.ok (l.getD idx 0), c2)
  | none => (Except.error ConfigError.userNotFound, c)

/-! ## Persistence -/

/-- Result of a store operation that returns an `error`; `panic` is the
`panic(err)` of `Save`. -/
inductive Outcome where
  | ok
  | error (e : ConfigError)
  | panic
deriving DecidableEq, Repr

/-- Result of `os.OpenFile`: success, an error for which `os.IsPermission`
holds, one for which `os.IsExist` holds, or another error. -/
inductive OpenResult where
  | ok
  | permission
  | exist
  | other
deriving DecidableEq, Repr

/-- The persisted part of a record: the session handle is transient. -/
def persisted (u : PanUser) : PanUser := { u with panClient := none }

/-- The document that serialization sees: the exported fields of `PanConfig`,
with the records of `UserList` read through their pointers. -/
structure Document where
  ActiveUID : Nat
  UserList : Option (List PanUser)
  SaveDir : String
deriving DecidableEq, Repr

/-- What `jsonhelper.UnmarshalData(file, c)` leaves behind: whether it returned
an error, the exported fields and the records as it left them, and the number
of bytes it read from the file. -/
structure Decoded where
  err : Bool
  ActiveUID : Nat
  UserList : Option (List Ptr)
  SaveDir : String
  heap : Heap
  consumed : Nat

/-- The host: platform and environment read by `initDefaultConfig`, the results
of the file calls made during one operation, and the JSON codec. -/
structure Host where
  GOOS : String
  HOME : Option String
  ExecutablePathJoin : String → String
  filepathJoin : String → String → String
  openFile : OpenResult
  statFails : Bool
  truncateFails : Bool
  seekFails : Bool
  /-- Value `some k`: `Write` returns an error after writing `k` bytes. -/
  writeFails : Option Nat
  /-- Call `jsoniter.MarshalIndent(c, "", " ")`; `none` is a non-nil error. -/
  marshal : Document → Option (List Nat)
  /-- Call `jsonhelper.UnmarshalData` applied to the bytes read from the file and to
  the exported fields and records of `c`. -/
  unmarshal : List Nat → Nat → Option (List Ptr) → String → Heap → Decoded

/-- The document of a store. -/
def docOf (c : PanConfig) : Document :=
  { ActiveUID := c.ActiveUID,
    UserList := c.UserList.map (fun l => l.map (fun p => persisted (c.heap p))),
    SaveDir := c.SaveDir }

/-- The document left by the decoder. -/
def Decoded.doc (d : Decoded) : Document :=
  { ActiveUID := d.ActiveUID,
    UserList := d.UserList.map (fun l => l.map (fun p => persisted (d.heap p))),
    SaveDir := d.SaveDir }

/-- Embedding of `NewConfig`: a store bound to `configFilePath`, every other field zero. -/
def NewConfig (configFilePath : String) (heap : Heap) (disk : List Nat) : PanConfig :=
  { ActiveUID := 0, UserList := none, SaveDir := "", configFilePath := configFilePath,
    configFile := none, activeUser := none, heap := heap, disk := disk }

/-- Embedding of `File.Truncate(n)`: the content is cut to `n` bytes, or extended with zero
bytes up to `n`; the offset of the handle is not moved. -/
def truncate (content : List Nat) (n : Nat) : List Nat :=
  content.take n ++ List.replicate (n - content.length) 0

/-- Content after writing `data` at offset `pos` (a gap is filled with zero
bytes). -/
def writeAt (content : List Nat) (pos : Nat) (data : List Nat) : List Nat :=
  content.take pos ++ List.replicate (pos - content.length) 0 ++ data ++
    content.drop (pos + data.length)

/-- Embedding of `c.configFile.Truncate(n)`. -/
def fileTruncate (c : PanConfig) (n : Nat) : PanConfig :=
  { c with disk := truncate c.disk n }

/-- Embedding of `c.configFile.Seek(0, os.SEEK_SET)`. -/
def fileSeekStart (c : PanConfig) : PanConfig :=
  match c.configFile with
  | some _ => { c with configFile := some 0 }
  | none => c

/-- Embedding of `c.configFile.Write(data)`: writes at the offset of the handle and advances it. -/
def fileWrite (c : PanConfig) (data : List Nat) : PanConfig :=
  match c.configFile with
  | some pos => { c with disk := writeAt c.disk pos data, configFile := some (pos + data.length) }
  | none => c

/-- The bytes a reader of `c.configFile` gets: the content from the offset of
the handle on. -/
def fileRest (c : PanConfig) : List Nat :=
  match c.configFile with
  | some pos => c.disk.drop pos
  | none => []

/-- Embedding of `PanConfig.lazyOpenConfigFile`. -/
def lazyOpenConfigFile (h : Host) (c : PanConfig) : Option ConfigError × PanConfig :=
  match c.configFile with
  | some _ => (none, c)
  | none =>
    match h.openFile with
    | OpenResult.ok => (none, { c with configFile := some 0 })
    | OpenResult.permission => (some ConfigError.ErrConfigFileNoPermission, c)
    | OpenResult.exist => (some ConfigError.ErrConfigFileNotExist, c)
    | OpenResult.other => (some ConfigError.io, c)

/-- Embedding of `PanConfig.fix`: empty. -/
def fix (c : PanConfig) : PanConfig := c

/-- Embedding of `PanConfig.Save`. -/
def Save (h : Host) (c : PanConfig) : Outcome × PanConfig :=
  match lazyOpenConfigFile h (fix c) with
  | (some e, c1) => (Outcome.error e, c1)
  | (none, c1) =>
    match h.marshal (docOf c1) with
    | none => (Outcome.panic, c1)
    | some data =>
      if h.truncateFails then (Outcome.error ConfigError.io, c1) else
      let c2 := fileTruncate c1 data.length
      if h.seekFails then (Outcome.error ConfigError.io, c2) else
      let c3 := fileSeekStart c2
      match h.writeFails with
      | some k => (Outcome.error ConfigError.io, fileWrite c3 (data.take k))
      | none => (Outcome.ok, fileWrite c3 data)

/-- Embedding of `PanConfig.initDefaultConfig`. -/
def initDefaultConfig (h : Host) (c : PanConfig) : PanConfig :=
  if h.GOOS = "windows" then { c with SaveDir := h.ExecutablePathJoin "Downloads" }
  else if h.GOOS = "android" then { c with SaveDir := "/sdcard/Download" }
  else
    match h.HOME with
    | none => { c with SaveDir := h.ExecutablePathJoin "Downloads" }
    | some dataPath => { c with SaveDir := h.filepathJoin dataPath "Downloads" }

/-- Embedding of `PanConfig.loadConfigFromFile`. -/
def loadConfigFromFile (h : Host) (c : PanConfig) : Outcome × PanConfig :=
  match lazyOpenConfigFile h c with
  | (some e, c1) => (Outcome.error e, c1)
  | (none, c1) =>
    if h.statFails then (Outcome.error ConfigError.io, c1) else
    if c1.disk.length = 0 then Save h c1 else
    if h.seekFails then (Outcome.error ConfigError.io, c1) else
    let c2 := fileSeekStart c1
    let d := h.unmarshal (fileRest c2) c2.ActiveUID c2.UserList c2.SaveDir c2.heap
    let c3 : PanConfig :=
      { c2 with ActiveUID := d.ActiveUID, UserList := d.UserList, SaveDir := d.SaveDir,
                heap := d.heap, configFile := c2.configFile.map (fun pos => pos + d.consumed) }
    if d.err then (Outcome.error ConfigError.ErrConfigContentsParseError, c3)
    else (Outcome.ok, c3)

/-- Embedding of `PanConfig.init`. -/
def init (h : Host) (c : PanConfig) : Outcome × PanConfig :=
  if c.configFilePath = "" then (Outcome.error ConfigError.ErrConfigFileNotExist, c)
  else loadConfigFromFile h (initDefaultConfig h c)

/-- Embedding of `PanConfig.Init`. -/
def Init (h : Host) (c : PanConfig) : Outcome × PanConfig := init h c

/-- Embedding of `PanConfig.Reload`. -/
def Reload (h : Host) (c : PanConfig) : Outcome × PanConfig := init h c

/-! ## The rename command -/

/-- What `RunRename` does to the outside: a line printed, and the calls to the
collaborators in the order they are made. -/
inductive Event where
  | print (msg : String)
  | getActiveUser
  | getActivePanClient
  | fileInfoByPath (familyId : Int) (path : String)
  | familyRename (familyId : Int) (fileId : String) (name : String)
  | personalRename (fileId : String) (name : String)
deriving DecidableEq, Repr

/-- The remote rename calls `AppFamilyRenameFile` and `AppRenameFile`. -/
def Event.isRename : Event → Bool
  | Event.familyRename _ _ _ => true
  | Event.personalRename _ _ => true
  | _ => false

/-- The path lookup `AppFileInfoByPath`. -/
def Event.isLookup : Event → Bool
  | Event.fileInfoByPath _ _ => true
  | _ => false

/-- The collaborators of `RunRename`.  A result `none` of a call on the active
user or on its client is a run-time panic of that call (a nil receiver); a
remote result is the pair of the returned pointer and the returned error. -/
structure RenameEnv where
  TrimSpace : String → String
  PathJoin : Int → String → Option String
  Dir : String → String
  Base : String → String
  CheckFileNameValid : String → Bool
  FileNameSpecialChars : String
  IsFamilyCloud : Int → Bool
  /-- Call `AppFileInfoByPath`: the `FileId` of the returned entity and the error. -/
  AppFileInfoByPath : Int → String → Option (Option String × Option String)
  AppFamilyRenameFile : Int → String → String → Option (Option FileEntity × Option String)
  AppRenameFile : String → String → Option (Option FileEntity × Option String)

/-- The end of `RunRename`, after the remote rename returned `(b, e)`. -/
def renameReport (env : RenameEnv) (oldName newName : String) (t : List Event)
    (r : Option (Option FileEntity × Option String)) : List Event × Bool :=
  match r with
  | none => (t, true)
  | some (_, some e) => (t ++ [Event.print (e ++ "\n")], false)
  | some (none, none) => (t ++ [Event.print "重命名文件失败\n"], false)
  | some (some _, none) =>
    (t ++ [Event.print ("重命名文件成功：" ++ env.Base oldName ++ " -> " ++ env.Base newName
      ++ "\n")], false)

/-- Embedding of `RunRename`: the events of one invocation, and whether it ended in a panic. -/
def RunRename (env : RenameEnv) (familyId : Int) (oldName newName : String) :
    List Event × Bool :=
  if oldName = "" then ([Event.print "请指定命名文件\n"], false) else
  if newName = "" then ([Event.print "请指定文件新名称\n"], false) else
  let t0 := [Event.getActiveUser]
  match env.PathJoin familyId (env.TrimSpace oldName) with
  | none => (t0, true)
  | some oldName1 =>
    match env.PathJoin familyId (env.TrimSpace newName) with
    | none => (t0, true)
    | some newName1 =>
      if env.Dir oldName1 ≠ env.Dir newName1 then
        (t0 ++ [Event.print "只能命名同一个目录的文件\n"], false)
      else if !env.CheckFileNameValid (env.Base newName1) then
        (t0 ++ [Event.print ("文件名不能包含特殊字符：" ++ env.FileNameSpecialChars ++ "\n")],
          false)
      else
        let t1 := t0 ++ [Event.getActivePanClient]
        match env.PathJoin familyId oldName1 with
        | none => (t1, true)
        | some lookupPath =>
          let t2 := t1 ++ [Event.fileInfoByPath familyId lookupPath]
          match env.AppFileInfoByPath familyId lookupPath with
          | none => (t2, true)
          | some (_, some err) =>
            (t2 ++ [Event.print ("原文件不存在： " ++ oldName1 ++ ", " ++ err ++ "\n")], false)
          | some (none, none) => (t2, true)
          | some (some fileId, none) =>
            if env.IsFamilyCloud familyId then
              renameReport env oldName1 newName1
                (t2 ++ [Event.familyRename familyId fileId (env.Base newName1)])
                (env.AppFamilyRenameFile familyId fileId (env.Base newName1))
            else
              renameReport env oldName1 newName1
                (t2 ++ [Event.personalRename fileId (env.Base newName1)])
                (env.AppRenameFile fileId (env.Base newName1))

/-- Collaborators for the scenarios of the specification: paths are absolute,
so `PathJoin` returns them as they are; `Dir` and `Base` are given on the
paths of the scenarios; only `/docs/a.txt` exists, with file ID `f1`. -/
def exRenameEnv : RenameEnv :=
  { TrimSpace := fun s => s,
    PathJoin := fun _ p => some p,
    Dir := fun p =>
      if p = "/docs/a.txt" then "/docs" else if p = "/docs/b.txt" then "/docs"
      else if p = "/other/b.txt" then "/other" else ".",
    Base := fun p =>
      if p = "/docs/a.txt" then "a.txt" else if p = "/docs/b.txt" then "b.txt"
      else if p = "/other/b.txt" then "b.txt" else p,
    CheckFileNameValid := fun _ => true,
    FileNameSpecialChars := ":*?<>|",
    IsFamilyCloud := fun familyId => decide (0 < familyId),
    AppFileInfoByPath := fun _ p =>
      if p = "/docs/a.txt" then some (some "f1", none) else some (none, some "not found"),
    AppFamilyRenameFile := fun _ _ _ => some (some 1, none),
    AppRenameFile := fun _ _ => some (some 1, none) }

/-! ## The JSON codec -/

/-- Modelled from the spec: JSON codec, not part of the sources.
Code points of a string: the text of the file is kept as the sequence of
its code points. -/
def codes (s : String) : List Nat := s.data.map Char.toNat

/-- Modelled from the spec: JSON codec, not part of the sources.
The string with the given code points. -/
def ofCodes (l : List Nat) : String := String.mk (l.map Char.ofNat)

/-- Modelled from the spec: the tokens of the JSON text form of section 6
(braces, brackets, colon, comma, `null`, integers and strings); the JSON reader
and writer themselves are not part of the sources. -/
inductive Tok where
  | lbrace
  | rbrace
  | lbrack
  | rbrack
  | colon
  | comma
  | null
  | num (n : Nat)
  | str (s : List Nat)
deriving DecidableEq, Repr

/-- Modelled from the spec: JSON codec, not part of the sources.
Little-endian decimal digits of `n`, with fuel. -/
def leDigits : Nat → Nat → List Nat
  | 0, _ => []
  | f + 1, n => if n < 10 then [n] else (n % 10) :: leDigits f (n / 10)

/-- Modelled from the spec: JSON codec, not part of the sources.
Value of a little-endian list of decimal digits. -/
def valueLE : List Nat → Nat
  | [] => 0
  | d :: t => d + 10 * valueLE t

/-- Modelled from the spec: JSON codec, not part of the sources.
Decimal text of an integer. -/
def digitsOf (n : Nat) : List Nat := ((leDigits (n + 1) n).reverse).map (fun d => d + 48)

/-- Modelled from the spec: JSON codec, not part of the sources.
Text of a string body: the quote (34) and the backslash (92) are escaped
with a backslash. -/
def escape : List Nat → List Nat
  | [] => []
  | c :: cs => if c = 34 ∨ c = 92 then 92 :: c :: escape cs else c :: escape cs

/-- Modelled from the spec: JSON codec, not part of the sources.
Text of a token. -/
def Tok.text : Tok → List Nat
  | Tok.lbrace => [123]
  | Tok.rbrace => [125]
  | Tok.lbrack => [91]
  | Tok.rbrack => [93]
  | Tok.colon => [58]
  | Tok.comma => [44]
  | Tok.null => [110, 117, 108, 108]
  | Tok.num n => digitsOf n
  | Tok.str s => 34 :: (escape s ++ [34])

/-- Modelled from the spec: JSON codec, not part of the sources.
Tokens before which the writer puts no white space. -/
def Tok.isPunct : Tok → Bool
  | Tok.colon => true
  | Tok.comma => true
  | _ => false

/-- Modelled from the spec: JSON codec, not part of the sources.
Opening tokens. -/
def Tok.isOpen : Tok → Bool
  | Tok.lbrace => true
  | Tok.lbrack => true
  | _ => false

/-- Modelled from the spec: JSON codec, not part of the sources.
Closing tokens. -/
def Tok.isClose : Tok → Bool
  | Tok.rbrace => true
  | Tok.rbrack => true
  | _ => false

/-- Modelled from the spec: JSON codec, not part of the sources.
White space written before the token `t` at nesting depth `d` after the
token `prev`: nothing before a colon or comma, a blank after a colon, nothing
between an opening token and its closing token, and otherwise a line break
followed by one blank per level of nesting. -/
def sep (d : Nat) (prev : Option Tok) (t : Tok) : List Nat :=
  if t.isPunct then []
  else match prev with
    | none => []
    | some p =>
      if p = Tok.colon then [32]
      else if t.isClose then (if p.isOpen then [] else 10 :: List.replicate (d - 1) 32)
      else 10 :: List.replicate d 32

/-- Modelled from the spec: JSON codec, not part of the sources.
Nesting depth after the token `t`. -/
def depthAfter (d : Nat) (t : Tok) : Nat :=
  if t.isOpen then d + 1 else if t.isClose then d - 1 else d

/-- Modelled from the spec: JSON codec, not part of the sources.
The indented text of a token sequence. -/
def layout : Nat → Option Tok → List Tok → List Nat
  | _, _, [] => []
  | d, prev, t :: ts => sep d prev t ++ (t.text ++ layout (depthAfter d t) (some t) ts)

/-- Modelled from the spec: JSON codec, not part of the sources.
White space between tokens. -/
def isWs (c : Nat) : Bool := c = 32 || c = 10 || c = 13 || c = 9

/-- Modelled from the spec: JSON codec, not part of the sources.
Decimal digits. -/
def isDigit (c : Nat) : Bool := decide (48 ≤ c) && decide (c ≤ 57)

/-- Modelled from the spec: JSON codec, not part of the sources.
The text does not start with a digit. -/
def noLeadingDigit (rest : List Nat) : Prop := ∀ c, rest.head? = some c → isDigit c = false

/-- Modelled from the spec: JSON codec, not part of the sources.
Reads a string body up to its closing quote; returns the body and the rest. -/
def lexString : List Nat → Option (List Nat × List Nat)
  | [] => none
  | c :: cs =>
    if c = 34 then some ([], cs)
    else if c = 92 then
      match cs with
      | [] => none
      | e :: cs1 =>
        if e = 34 ∨ e = 92 then (lexString cs1).map (fun r => (e :: r.1, r.2)) else none
    else (lexString cs).map (fun r => (c :: r.1, r.2))

/-- Modelled from the spec: JSON codec, not part of the sources.
Reads the longest run of digits; returns its value and the rest. -/
def lexNum (cs : List Nat) : Nat × List Nat :=
  (valueLE (((cs.takeWhile isDigit).map (fun c => c - 48)).reverse), cs.dropWhile isDigit)

/-- Modelled from the spec: JSON codec, not part of the sources.
Reads the token that starts with the character `c`, which is not white
space, and is followed by `cs`; returns the token and the rest. -/
def nextTok (c : Nat) (cs : List Nat) : Option (Tok × List Nat) :=
  if c = 123 then some (Tok.lbrace, cs)
  else if c = 125 then some (Tok.rbrace, cs)
  else if c = 91 then some (Tok.lbrack, cs)
  else if c = 93 then some (Tok.rbrack, cs)
  else if c = 58 then some (Tok.colon, cs)
  else if c = 44 then some (Tok.comma, cs)
  else if c = 34 then (lexString cs).map (fun r => (Tok.str r.1, r.2))
  else if isDigit c then some (Tok.num (lexNum (c :: cs)).1, (lexNum (c :: cs)).2)
  else if c = 110 then
    match cs with
    | 117 :: 108 :: 108 :: rest => some (Tok.null, rest)
    | _ => none
  else none

/-- Modelled from the spec: JSON codec, not part of the sources.
Splits a text into tokens; `none` when the text is not made of tokens. -/
def lexToks : Nat → List Nat → Option (List Tok)
  | 0, _ => none
  | _ + 1, [] => some []
  | f + 1, c :: cs =>
    if isWs c then lexToks f cs
    else (nextTok c cs).bind (fun r => (lexToks f r.2).map (fun ts => r.1 :: ts))

/-- Modelled from the spec: JSON codec, not part of the sources.
Skips one value of any shape: counts the nesting of brackets. -/
def skipNested : Nat → List Tok → Option (List Tok)
  | _, [] => none
  | d, t :: ts =>
    if t.isOpen then skipNested (d + 1) ts
    else if t.isClose then
      (if d = 0 then none else if d = 1 then some ts else skipNested (d - 1) ts)
    else if d = 0 then (if t.isPunct then none else some ts)
    else skipNested d ts

/-- Modelled from the spec: JSON codec, not part of the sources.
What follows a member of an object: a comma and more members (`true`), or
the closing brace (`false`). -/
def afterMember : List Tok → Option (Bool × List Tok)
  | Tok.comma :: ts => some (true, ts)
  | Tok.rbrace :: ts => some (false, ts)
  | _ => none

/-- Modelled from the spec: JSON codec, not part of the sources.
Decodes the value of the member `k` of a user object into `u`.  A member
with an unknown name is skipped, `null` leaves the field as it is, and a value
of the wrong kind is an error. -/
def userField (k : List Nat) (ts : List Tok) (u : PanUser) : Option (PanUser × List Tok) :=
  match ts with
  | Tok.null :: ts1 => some (u, ts1)
  | Tok.num n :: ts1 =>
    if k = codes "UID" then some ({ u with UID := n }, ts1)
    else if k = codes "WorkdirFileEntity" then some ({ u with WorkdirFileEntity := n }, ts1)
    else if k = codes "AccountName" ∨ k = codes "Nickname" ∨ k = codes "Sex" ∨
        k = codes "WebToken" ∨ k = codes "AppToken" ∨ k = codes "Workdir" then none
    else some (u, ts1)
  | Tok.str s :: ts1 =>
    if k = codes "AccountName" then some ({ u with AccountName := ofCodes s }, ts1)
    else if k = codes "Nickname" then some ({ u with Nickname := ofCodes s }, ts1)
    else if k = codes "Sex" then some ({ u with Sex := ofCodes s }, ts1)
    else if k = codes "WebToken" then some ({ u with WebToken := ofCodes s }, ts1)
    else if k = codes "AppToken" then some ({ u with AppToken := ofCodes s }, ts1)
    else if k = codes "Workdir" then some ({ u with Workdir := ofCodes s }, ts1)
    else if k = codes "UID" ∨ k = codes "WorkdirFileEntity" then none
    else some (u, ts1)
  | _ =>
    if k = codes "UID" ∨ k = codes "WorkdirFileEntity" ∨ k = codes "AccountName" ∨
        k = codes "Nickname" ∨ k = codes "Sex" ∨ k = codes "WebToken" ∨
        k = codes "AppToken" ∨ k = codes "Workdir" then none
    else (skipNested 0 ts).map (fun r => (u, r))

/-- Modelled from the spec: JSON codec, not part of the sources.
Decodes one member of a user object into `u`: its name, a colon, its
value, and what follows it. -/
def userMember (ts : List Tok) (u : PanUser) : Option (Bool × PanUser × List Tok) :=
  match ts with
  | Tok.str k :: Tok.colon :: ts1 =>
    (userField k ts1 u).bind (fun r => (afterMember r.2).map (fun m => (m.1, r.1, m.2)))
  | _ => none

/-- Modelled from the spec: JSON codec, not part of the sources.
Decodes the members of a user object, up to its closing brace. -/
def parseUserMembers : Nat → List Tok → PanUser → Option (PanUser × List Tok)
  | 0, _, _ => none
  | f + 1, ts, u =>
    (userMember ts u).bind (fun r =>
      if r.1 then parseUserMembers f r.2.2 r.2.1 else some (r.2.1, r.2.2))

/-- Modelled from the spec: JSON codec, not part of the sources.
Decodes a user object into a record that starts from the zero value. -/
def parseUser (f : Nat) (ts : List Tok) : Option (PanUser × List Tok) :=
  match ts with
  | Tok.lbrace :: Tok.rbrace :: ts1 => some (PanUser.zero, ts1)
  | Tok.lbrace :: ts1 => parseUserMembers f ts1 PanUser.zero
  | _ => none

/-- Modelled from the spec: JSON codec, not part of the sources.
What follows an element of an array: a comma and more elements (`true`),
or the closing bracket (`false`). -/
def afterElement : List Tok → Option (Bool × List Tok)
  | Tok.comma :: ts => some (true, ts)
  | Tok.rbrack :: ts => some (false, ts)
  | _ => none

/-- Modelled from the spec: JSON codec, not part of the sources.
Decodes the elements of a non-empty array of user objects, up to its
closing bracket. -/
def parseUsers : Nat → List Tok → Option (List PanUser × List Tok)
  | 0, _ => none
  | f + 1, ts =>
    (parseUser f ts).bind (fun r =>
      (afterElement r.2).bind (fun m =>
        if m.1 then (parseUsers f m.2).map (fun q => (r.1 :: q.1, q.2))
        else some ([r.1], m.2)))

/-- Modelled from the spec: JSON codec, not part of the sources.
The exported fields as the decoder has them while it reads: `users` is
`none` as long as no member `UserList` was read. -/
structure TopFields where
  ActiveUID : Nat
  users : Option (Option (List PanUser))
  SaveDir : String

/-- Modelled from the spec: JSON codec, not part of the sources.
Decodes the value of the member `k` of the top-level object. -/
def topField (f : Nat) (k : List Nat) (ts : List Tok) (a : TopFields) :
    Option (TopFields × List Tok) :=
  if k = codes "ActiveUID" then
    match ts with
    | Tok.num n :: ts1 => some ({ a with ActiveUID := n }, ts1)
    | Tok.null :: ts1 => some (a, ts1)
    | _ => none
  else if k = codes "UserList" then
    match ts with
    | Tok.null :: ts1 => some ({ a with users := some none }, ts1)
    | Tok.lbrack :: Tok.rbrack :: ts1 => some ({ a with users := some (some []) }, ts1)
    | Tok.lbrack :: ts1 =>
      (parseUsers f ts1).map (fun r => ({ a with users := some (some r.1) }, r.2))
    | _ => none
  else if k = codes "SaveDir" then
    match ts with
    | Tok.str s :: ts1 => some ({ a with SaveDir := ofCodes s }, ts1)
    | Tok.null :: ts1 => some (a, ts1)
    | _ => none
  else (skipNested 0 ts).map (fun r => (a, r))

/-- Modelled from the spec: JSON codec, not part of the sources.
Decodes one member of the top-level object. -/
def topMember (f : Nat) (ts : List Tok) (a : TopFields) :
    Option (Bool × TopFields × List Tok) :=
  match ts with
  | Tok.str k :: Tok.colon :: ts1 =>
    (topField f k ts1 a).bind (fun r => (afterMember r.2).map (fun m => (m.1, r.1, m.2)))
  | _ => none

/-- Modelled from the spec: JSON codec, not part of the sources.
Decodes the members of the top-level object, up to its closing brace. -/
def parseTopMembers : Nat → List Tok → TopFields → Option (TopFields × List Tok)
  | 0, _, _ => none
  | f + 1, ts, a =>
    (topMember f ts a).bind (fun r =>
      if r.1 then parseTopMembers f r.2.2 r.2.1 else some (r.2.1, r.2.2))

/-- Modelled from the spec: JSON codec, not part of the sources.
Decodes the document: one object, and nothing after it. -/
def parseDoc (f : Nat) (ts : List Tok) (a : TopFields) : Option TopFields :=
  match ts with
  | Tok.lbrace :: Tok.rbrace :: [] => some a
  | Tok.lbrace :: ts1 =>
    match parseTopMembers f ts1 a with
    | some (a1, []) => some a1
    | _ => none
  | _ => none

/-- Modelled from the spec: JSON codec, not part of the sources.
Tokens of a user object: every persisted field, under its name. -/
def userToks (u : PanUser) : List Tok :=
  [Tok.lbrace,
   Tok.str (codes "UID"), Tok.colon, Tok.num u.UID, Tok.comma,
   Tok.str (codes "AccountName"), Tok.colon, Tok.str (codes u.AccountName), Tok.comma,
   Tok.str (codes "Nickname"), Tok.colon, Tok.str (codes u.Nickname), Tok.comma,
   Tok.str (codes "Sex"), Tok.colon, Tok.str (codes u.Sex), Tok.comma,
   Tok.str (codes "WebToken"), Tok.colon, Tok.str (codes u.WebToken), Tok.comma,
   Tok.str (codes "AppToken"), Tok.colon, Tok.str (codes u.AppToken), Tok.comma,
   Tok.str (codes "Workdir"), Tok.colon, Tok.str (codes u.Workdir), Tok.comma,
   Tok.str (codes "WorkdirFileEntity"), Tok.colon, Tok.num u.WorkdirFileEntity,
   Tok.rbrace]

/-- Modelled from the spec: JSON codec, not part of the sources.
Tokens of the elements of a non-empty array of users and its closing
bracket. -/
def usersBody : PanUser → List PanUser → List Tok
  | u, [] => userToks u ++ [Tok.rbrack]
  | u, v :: vs => userToks u ++ Tok.comma :: usersBody v vs

/-- Modelled from the spec: JSON codec, not part of the sources.
Tokens of the value of `UserList`: `null` for the nil slice. -/
def usersToks : Option (List PanUser) → List Tok
  | none => [Tok.null]
  | some [] => [Tok.lbrack, Tok.rbrack]
  | some (u :: us) => Tok.lbrack :: usersBody u us

/-- Modelled from the spec: JSON codec, not part of the sources.
Tokens of the document: the three exported fields of `PanConfig`. -/
def docToks (d : Document) : List Tok :=
  [Tok.lbrace, Tok.str (codes "ActiveUID"), Tok.colon, Tok.num d.ActiveUID, Tok.comma,
   Tok.str (codes "UserList"), Tok.colon] ++ usersToks d.UserList ++
  [Tok.comma, Tok.str (codes "SaveDir"), Tok.colon, Tok.str (codes d.SaveDir), Tok.rbrace]

/-- Modelled from the spec: `jsoniter.MarshalIndent(c, "", " ")`, which is not
part of the sources.  Sections 4.1 and 6: the entire structure is serialized to
an indented text form, an object with the active account ID, the array of user
objects and the save directory.  It never fails. -/
def MarshalIndent (d : Document) : Option (List Nat) := some (layout 0 none (docToks d))

/-- Modelled from the spec: JSON codec, not part of the sources.
Stores the decoded records in newly allocated records, at the addresses
from `next` on; returns their addresses and the new heap. -/
def allocUsers : Ptr → List PanUser → Heap → List Ptr × Heap
  | _, [], hp => ([], hp)
  | next, u :: us, hp =>
    ((next :: (allocUsers (next + 1) us (Function.update hp next u)).1),
      (allocUsers (next + 1) us (Function.update hp next u)).2)

/-- Modelled from the spec: JSON codec, not part of the sources.
An address above every address of the collection. -/
def freshAbove (l : List Ptr) : Ptr := l.foldr (fun p m => max (p + 1) m) 0

/-- Modelled from the spec: `jsonhelper.UnmarshalData(file, c)`, which is not
part of the sources.  Sections 4.1 and 6: the file content is parsed into the
in-memory structure; malformed content is an error (and then nothing is
written); a member that is missing leaves the field as `init` prepared it, an
unknown member is skipped, and the fields of a user object that are missing
take their zero value.  The user objects are decoded into new records. -/
def UnmarshalData (bytes : List Nat) (a : Nat) (l : Option (List Ptr)) (s : String)
    (hp : Heap) : Decoded :=
  match lexToks (bytes.length + 1) bytes with
  | none => { err := true, ActiveUID := a, UserList := l, SaveDir := s, heap := hp,
              consumed := bytes.length }
  | some ts =>
    match parseDoc (ts.length + 16) ts { ActiveUID := a, users := none, SaveDir := s } with
    | none => { err := true, ActiveUID := a, UserList := l, SaveDir := s, heap := hp,
                consumed := bytes.length }
    | some r =>
      match r.users with
      | none => { err := false, ActiveUID := r.ActiveUID, UserList := l, SaveDir := r.SaveDir,
                  heap := hp, consumed := bytes.length }
      | some none => { err := false, ActiveUID := r.ActiveUID, UserList := none,
                       SaveDir := r.SaveDir, heap := hp, consumed := bytes.length }
      | some (some us) =>
        { err := false, ActiveUID := r.ActiveUID,
          UserList := some (allocUsers (freshAbove (elems l)) us hp).1,
          SaveDir := r.SaveDir,
          heap := (allocUsers (freshAbove (elems l)) us hp).2,
          consumed := bytes.length }

/-- Modelled from the spec: JSON codec, not part of the sources.
The host `h` with the JSON codec. -/
def jsonHost (h : Host) : Host :=
  { h with marshal := MarshalIndent, unmarshal := UnmarshalData }

/-! ## Example stores -/

/-- A record with the given account ID and name and no session handle. -/
def exUser (uid : Nat) (name : String) : PanUser :=
  { PanUser.zero with UID := uid, AccountName := name, WebToken := "w", AppToken := "a" }

/-- Heap with the account 100 at address 0 and the account 200 at address 1. -/
def exHeap : Heap := fun p =>
  if p = 0 then exUser 100 "alice" else if p = 1 then exUser 200 "bob" else PanUser.zero

/-- Store holding the accounts 100 and 200, account 100 active, nothing cached. -/
def exStore : PanConfig :=
  { ActiveUID := 100, UserList := some [0, 1], SaveDir := "/home/u/Downloads",
    configFilePath := "/cfg/cloud189_config.json", configFile := none,
    activeUser := none, heap := exHeap, disk := [] }

/-- Collaborators whose re-authentication always fails. -/
def envFail : Remote :=
  { SetupUserByCookie := fun _ _ => none, FileInfoByPath := fun _ _ => none, rootDir := 0 }

/-- Collaborators whose re-authentication succeeds with handle 7. -/
def envOk : Remote :=
  { SetupUserByCookie := fun _ _ => some (some 7, "nick"),
    FileInfoByPath := fun _ _ => some 5, rootDir := 0 }

/-- Bytes standing for the serialized document of the accounts 100 and 200. -/
def exBytes : List Nat := [123, 49, 125]

/-- The document of `exStore` with the save directory `/data/dl`. -/
def exDoc : Document :=
  { ActiveUID := 100, UserList := some [exUser 100 "alice", exUser 200 "bob"],
    SaveDir := "/data/dl" }

/-- What a decoder leaves after reading `exBytes`: the records at the
addresses 0 and 1 are written and keep their unexported session handle. -/
def exDecoded (hp : Heap) : Decoded :=
  { err := false, ActiveUID := 100, UserList := some [0, 1], SaveDir := "/data/dl",
    heap := fun p =>
      if p = 0 then { exUser 100 "alice" with panClient := (hp 0).panClient }
      else if p = 1 then { exUser 200 "bob" with panClient := (hp 1).panClient }
      else hp p,
    consumed := 3 }

/-- A host on which every file call succeeds, with a codec that knows the
document `exDoc` only: it is serialized to `exBytes`, and every other content
is rejected by the decoder, which then leaves the fields as they are. -/
def hostEx : Host :=
  { GOOS := "linux", HOME := some "/home/u",
    ExecutablePathJoin := fun s => "/opt/app/" ++ s,
    filepathJoin := fun a b => a ++ "/" ++ b,
    openFile := OpenResult.ok, statFails := false, truncateFails := false,
    seekFails := false, writeFails := none,
    marshal := fun d => if d = exDoc then some exBytes else some [110],
    unmarshal := fun bytes a l s hp =>
      if bytes = exBytes then exDecoded hp
      else { err := true, ActiveUID := a, UserList := l, SaveDir := s, heap := hp,
             consumed := 0 } }

/-- The host `hostEx` with a decoder that reads the file as a stream and
decodes into the structure as it goes: it has written an active ID, a
one-element collection and a nickname when it meets the end of an unterminated
document and returns its error. -/
def hostStream : Host :=
  { hostEx with
    unmarshal := fun _ _ _ s hp =>
      { err := true, ActiveUID := 7, UserList := some [0], SaveDir := s,
        heap := Function.update hp 0 { hp 0 with Nickname := "half" },
        consumed := 2 } }

/-- The store `exStore` with the save directory `/data/dl`, an open handle at
offset 4 and a longer previous document in the file. -/
def exSaved : PanConfig :=
  { exStore with SaveDir := "/data/dl", configFile := some 4, disk := [9, 9, 9, 9, 9, 9] }

/-- The store `exStore` loaded earlier with the save directory `/data/dl`,
whose file now holds the two bytes of an unterminated document. -/
def exLoaded : PanConfig :=
  { exStore with SaveDir := "/data/dl", configFile := some 0, disk := [123, 34] }

/-- The store `exSaved` with the account 200 only. -/
def exOneUser : PanConfig := { exSaved with ActiveUID := 200, UserList := some [1] }

/-- A store with the nil collection and no active account. -/
def exNoUser : PanConfig := { exSaved with ActiveUID := 0, UserList := none }

/-- A new store bound to a file that holds `exBytes`. -/
def exFresh : PanConfig :=
  NewConfig "/cfg/cloud189_config.json" (fun _ => PanUser.zero) exBytes

/-- The store `exFresh` after `Init`, a first `ActiveUser` and an unsaved
`SwitchUser` to account 200. -/
def exSwitched : PanConfig :=
  (SwitchUser envOk (ActiveUser envOk (Init hostEx exFresh).2).2 200 "").2

/-! ## Frame lemmas for the user-management operations -/

/-- Account IDs of the collection, in collection order. -/
def uids (c : PanConfig) : List Nat := (elems c.UserList).map (fun p => (c.heap p).UID)

/-- The store invariant of the data model: no two records of the collection
share an account ID, and the active ID is zero or the ID of a record. -/
def StoreInv (c : PanConfig) : Prop :=
  (uids c).Nodup ∧ (c.ActiveUID = 0 ∨ c.ActiveUID ∈ uids c)

/-- The restore branch writes only the record at `u`, and never an account ID,
the collection, the active ID or the cache. -/
theorem restoreClient_frame (env : Remote) (c : PanConfig) (u : Ptr) :
    (restoreClient env c u).2.UserList = c.UserList ∧
    (restoreClient env c u).2.ActiveUID = c.ActiveUID ∧
    (restoreClient env c u).2.activeUser = c.activeUser ∧
    (∀ p, ((restoreClient env c u).2.heap p).UID = (c.heap p).UID) ∧
    (∀ p, p ≠ u → (restoreClient env c u).2.heap p = c.heap p) := by
  unfold restoreClient
  cases h1 : env.SetupUserByCookie (c.heap u).WebToken (c.heap u).AppToken with
  | none => simp
  | some r =>
    obtain ⟨client, nick⟩ := r
    simp only []
    cases h2 : env.FileInfoByPath
        (PanUser.PanClient { c.heap u with panClient := client, Nickname := nick })
        (c.heap u).Workdir with
    | none =>
      refine ⟨rfl, rfl, rfl, ?_, ?_⟩
      · intro p
        by_cases hp : p = u
        · subst hp; simp
        · simp [Function.update_noteq hp]
      · intro p hp
        simp [Function.update_noteq hp]
    | some fe =>
      refine ⟨rfl, rfl, rfl, ?_, ?_⟩
      · intro p
        by_cases hp : p = u
        · subst hp; simp
        · simp [Function.update_noteq hp]
      · intro p hp
        simp [Function.update_noteq hp]

/-- The operation `ActiveUser` keeps the collection, the active ID and every
account ID. -/
theorem ActiveUser_frame (env : Remote) (c : PanConfig) :
    (ActiveUser env c).2.UserList = c.UserList ∧
    (ActiveUser env c).2.ActiveUID = c.ActiveUID ∧
    (∀ p, ((ActiveUser env c).2.heap p).UID = (c.heap p).UID) := by
  obtain ⟨aid, ul, sd, path, cf, au, hp, dk⟩ := c
  unfold ActiveUser
  cases au with
  | some p => simp
  | none =>
    cases ul with
    | none => simp
    | some l =>
      simp only []
      cases h2 : l.find? (fun u => (hp u).UID == aid) with
      | none => simp
      | some u =>
        simp only []
        cases h3 : (hp u).PanClient with
        | some cl => simp
        | none =>
          have hf := restoreClient_frame env
            { ActiveUID := aid, UserList := some l, SaveDir := sd, configFilePath := path,
              configFile := cf, activeUser := some u, heap := hp, disk := dk } u
          exact ⟨hf.1, hf.2.1, hf.2.2.2.1⟩

/-- Result of `ActiveUser` when a handle is cached. -/
theorem ActiveUser_cached (env : Remote) (c : PanConfig) (p : Ptr)
    (h : c.activeUser = some p) : ActiveUser env c = (UserRef.record p, c) := by
  unfold ActiveUser
  rw [h]

/-- Result of `ActiveUser` when nothing is cached and no record matches. -/
theorem ActiveUser_nomatch (env : Remote) (c : PanConfig) (l : List Ptr)
    (h0 : c.activeUser = none) (h1 : c.UserList = some l)
    (h2 : l.find? (fun u => (c.heap u).UID == c.ActiveUID) = none) :
    ActiveUser env c = (UserRef.placeholder, c) := by
  unfold ActiveUser
  rw [h0, h1]
  simp only []
  rw [h2]

/-- Result of `ActiveUser` when nothing is cached and the matching record has a
session handle. -/
theorem ActiveUser_live (env : Remote) (c : PanConfig) (l : List Ptr) (u : Ptr)
    (cl : PanClient) (h0 : c.activeUser = none) (h1 : c.UserList = some l)
    (h2 : l.find? (fun u => (c.heap u).UID == c.ActiveUID) = some u)
    (h3 : (c.heap u).panClient = some cl) :
    ActiveUser env c = (UserRef.record u, { c with activeUser := some u }) := by
  unfold ActiveUser
  rw [h0, h1]
  simp only []
  rw [h2]
  simp only [PanUser.PanClient]
  rw [h3]

/-- Result of `ActiveUser` when nothing is cached and the matching record has
no session handle. -/
theorem ActiveUser_restore (env : Remote) (c : PanConfig) (l : List Ptr) (u : Ptr)
    (h0 : c.activeUser = none) (h1 : c.UserList = some l)
    (h2 : l.find? (fun u => (c.heap u).UID == c.ActiveUID) = some u)
    (h3 : (c.heap u).panClient = none) :
    ActiveUser env c = restoreClient env { c with activeUser := some u } u := by
  unfold ActiveUser
  rw [h0, h1]
  simp only []
  rw [h2]
  simp only [PanUser.PanClient]
  rw [h3]

/-- The restore branch returns nil exactly when re-authentication fails, and
the record itself otherwise. -/
theorem restoreClient_result (env : Remote) (c : PanConfig) (u : Ptr) :
    (env.SetupUserByCookie (c.heap u).WebToken (c.heap u).AppToken = none ∧
      restoreClient env c u = (UserRef.null, c)) ∨
    (env.SetupUserByCookie (c.heap u).WebToken (c.heap u).AppToken ≠ none ∧
      (restoreClient env c u).1 = UserRef.record u) := by
  unfold restoreClient
  cases h1 : env.SetupUserByCookie (c.heap u).WebToken (c.heap u).AppToken with
  | none => exact Or.inl ⟨rfl, rfl⟩
  | some r =>
    obtain ⟨client, nick⟩ := r
    refine Or.inr ⟨by simp, ?_⟩
    simp only []
    cases env.FileInfoByPath
        (PanUser.PanClient { c.heap u with panClient := client, Nickname := nick })
        (c.heap u).Workdir <;> rfl

/-- The operation `ActiveUser` writes only to records whose ID is the active ID. -/
theorem ActiveUser_heap_other (env : Remote) (c : PanConfig) (p : Ptr)
    (hp : (c.heap p).UID ≠ c.ActiveUID) : (ActiveUser env c).2.heap p = c.heap p := by
  cases h0 : c.activeUser with
  | some q => rw [ActiveUser_cached env c q h0]
  | none =>
    cases h1 : c.UserList with
    | none =>
      unfold ActiveUser
      rw [h0, h1]
    | some l =>
      cases h2 : l.find? (fun u => (c.heap u).UID == c.ActiveUID) with
      | none => rw [ActiveUser_nomatch env c l h0 h1 h2]
      | some u =>
        have huid : (c.heap u).UID = c.ActiveUID := by
          have := List.find?_some h2
          simpa using this
        have hne : p ≠ u := fun h => hp (h ▸ huid)
        cases h3 : (c.heap u).panClient with
        | some cl => rw [ActiveUser_live env c l u cl h0 h1 h2 h3]
        | none =>
          rw [ActiveUser_restore env c l u h0 h1 h2 h3]
          exact (restoreClient_frame env { c with activeUser := some u } u).2.2.2.2 p hne

/-- Effect of the upsert step of `SetActiveUser`. -/
theorem upsertUser_spec (c : PanConfig) (user : Ptr) :
    (∀ p, ((upsertUser c user).heap p).UID = (c.heap p).UID) ∧
    ((∃ u ∈ elems c.UserList, (c.heap u).UID = (c.heap user).UID) →
      (upsertUser c user).UserList = c.UserList) ∧
    ((∀ u ∈ elems c.UserList, (c.heap u).UID ≠ (c.heap user).UID) →
      (upsertUser c user).UserList = some (elems c.UserList ++ [user])) ∧
    (∀ p, (c.heap p).UID ≠ (c.heap user).UID → (upsertUser c user).heap p = c.heap p) := by
  unfold upsertUser
  cases h : (elems c.UserList).find? (fun u => (c.heap u).UID == (c.heap user).UID) with
  | none =>
    have hnone : ∀ u ∈ elems c.UserList, (c.heap u).UID ≠ (c.heap user).UID := by
      simpa using h
    refine ⟨fun _ => rfl, ?_, fun _ => rfl, fun _ _ => rfl⟩
    rintro ⟨u, hu, he⟩
    exact absurd he (hnone u hu)
  | some u =>
    have huid : (c.heap u).UID = (c.heap user).UID := by
      have := List.find?_some h
      simpa using this
    have hmem : u ∈ elems c.UserList := List.mem_of_find?_eq_some h
    refine ⟨?_, fun _ => rfl, ?_, ?_⟩
    · intro p
      by_cases hp : p = u
      · subst hp; simp [updateUserInfo]
      · simp [Function.update_noteq hp]
    · intro hn
      exact absurd huid (hn u hmem)
    · intro p hp
      have hne : p ≠ u := fun hpu => hp (hpu ▸ huid)
      simp [Function.update_noteq hne]

/-- Effect of `SetActiveUser` on the active ID, the account IDs of all records
and the collection. -/
theorem SetActiveUser_spec (env : Remote) (c : PanConfig) (user : Ptr) :
    (SetActiveUser env c user).2.ActiveUID = (c.heap user).UID ∧
    (∀ p, ((SetActiveUser env c user).2.heap p).UID = (c.heap p).UID) ∧
    ((∃ u ∈ elems c.UserList, (c.heap u).UID = (c.heap user).UID) →
      (SetActiveUser env c user).2.UserList = c.UserList) ∧
    ((∀ u ∈ elems c.UserList, (c.heap u).UID ≠ (c.heap user).UID) →
      (SetActiveUser env c user).2.UserList = some (elems c.UserList ++ [user])) ∧
    (∀ p, (c.heap p).UID ≠ (c.heap user).UID →
      (SetActiveUser env c user).2.heap p = c.heap p) := by
  have hu := upsertUser_spec c user
  have hf := ActiveUser_frame env
    { upsertUser c user with
      ActiveUID := ((upsertUser c user).heap user).UID, activeUser := none }
  unfold SetActiveUser
  simp only [] at hf ⊢
  refine ⟨?_, ?_, ?_, ?_, ?_⟩
  · rw [hf.2.1]
    exact hu.1 user
  · intro p
    rw [hf.2.2 p]
    exact hu.1 p
  · intro h
    rw [hf.1]
    exact hu.2.1 h
  · intro h
    rw [hf.1]
    exact hu.2.2.1 h
  · intro p hp
    rw [ActiveUser_heap_other env _ p]
    · exact hu.2.2.2 p hp
    · simp only []
      rw [hu.1 p, hu.1 user]
      exact hp

/-- Account IDs of a store whose records kept the IDs they have in `c`. -/
theorem uids_of_frame (c c1 : PanConfig)
    (h : ∀ p, (c1.heap p).UID = (c.heap p).UID) :
    uids c1 = (elems c1.UserList).map (fun p => (c.heap p).UID) := by
  unfold uids
  exact List.map_congr_left (fun p _ => h p)

/-- The operation `SetActiveUser` establishes the store invariant from distinct account IDs. -/
theorem SetActiveUser_inv (env : Remote) (c : PanConfig) (user : Ptr)
    (hnd : (uids c).Nodup) : StoreInv (SetActiveUser env c user).2 := by
  have hs := SetActiveUser_spec env c user
  have hu := uids_of_frame c (SetActiveUser env c user).2 hs.2.1
  unfold StoreInv
  rw [hu, hs.1]
  by_cases hex : ∃ u ∈ elems c.UserList, (c.heap u).UID = (c.heap user).UID
  · rw [hs.2.2.1 hex]
    refine ⟨hnd, Or.inr ?_⟩
    obtain ⟨u, hu1, hu2⟩ := hex
    exact List.mem_map.mpr ⟨u, hu1, hu2⟩
  · have hall : ∀ u ∈ elems c.UserList, (c.heap u).UID ≠ (c.heap user).UID :=
      fun u hu1 hu2 => hex ⟨u, hu1, hu2⟩
    rw [hs.2.2.2.1 hall]
    simp only [elems, Option.getD_some, List.map_append, List.map_cons, List.map_nil]
    refine ⟨?_, Or.inr (by simp)⟩
    rw [List.nodup_append]
    refine ⟨hnd, List.nodup_singleton _, ?_⟩
    intro a ha hb
    rw [List.mem_singleton] at hb
    subst hb
    obtain ⟨u, hu1, hu2⟩ := List.mem_map.mp ha
    exact hall u hu1 hu2

/-- The operation `SwitchUser` keeps the store invariant. -/
theorem SwitchUser_inv (env : Remote) (c : PanConfig) (uid : Nat) (username : String)
    (hinv : StoreInv c) : StoreInv (SwitchUser env c uid username).2 := by
  unfold SwitchUser
  cases (elems c.UserList).find?
      (fun u => (c.heap u).UID == uid || (c.heap u).AccountName == username) with
  | none => exact hinv
  | some u => exact SetActiveUser_inv env c u hinv.1

/-- The operation `SwitchUser` with the account ID of the first record selects that record. -/
theorem SwitchUser_head (env : Remote) (c : PanConfig) (first : Ptr) (tail : List Ptr)
    (h : elems c.UserList = first :: tail) :
    (SwitchUser env c (c.heap first).UID "").2 = (SetActiveUser env c first).2 := by
  unfold SwitchUser
  rw [h]
  simp

/-- The store left by `DeleteUser` when the record is found at index `idx`. -/
theorem DeleteUser_found (env : Remote) (c : PanConfig) (uid idx : Nat)
    (h : (elems c.UserList).findIdx? (fun u => (c.heap u).UID == uid) = some idx) :
    DeleteUser env c uid =
      (Except.ok ((elems c.UserList).getD idx 0),
        match (elems c.UserList).eraseIdx idx with
        | first :: _ =>
          (SetActiveUser env { c with UserList := some ((elems c.UserList).eraseIdx idx),
                                      ActiveUID := 0, activeUser := none } first).2
        | [] => { c with UserList := some ((elems c.UserList).eraseIdx idx),
                         ActiveUID := 0, activeUser := none }) := by
  unfold DeleteUser
  rw [h]
  simp only [← List.eraseIdx_eq_take_drop_succ]
  cases hr : (elems c.UserList).eraseIdx idx with
  | nil => rfl
  | cons first tail =>
    simp only []
    rw [SwitchUser_head env _ first tail (by simp [elems])]

/-- The operation `DeleteUser` keeps the store invariant. -/
theorem DeleteUser_inv (env : Remote) (c : PanConfig) (uid : Nat)
    (hinv : StoreInv c) : StoreInv (DeleteUser env c uid).2 := by
  cases h : (elems c.UserList).findIdx? (fun u => (c.heap u).UID == uid) with
  | none =>
    unfold DeleteUser
    rw [h]
    exact hinv
  | some idx =>
    rw [DeleteUser_found env c uid idx h]
    have hnd : (uids { c with UserList := some ((elems c.UserList).eraseIdx idx),
                              ActiveUID := 0, activeUser := none }).Nodup := by
      unfold uids
      simp only [elems, Option.getD_some]
      exact List.Nodup.sublist ((List.eraseIdx_sublist _ idx).map _) hinv.1
    cases hr : (elems c.UserList).eraseIdx idx with
    | nil =>
      simp only []
      rw [← hr]
      exact ⟨hnd, Or.inl rfl⟩
    | cons first tail =>
      simp only []
      rw [← hr]
      exact SetActiveUser_inv env _ first hnd

/-- In a list whose images under `f` are pairwise distinct, no element left
after erasing index `i` has the image of the erased element. -/
theorem image_ne_of_mem_eraseIdx {α : Type} (f : α → Nat) (d : α) :
    ∀ (l : List α) (i : Nat), i < l.length → (l.map f).Nodup →
      ∀ q ∈ l.eraseIdx i, f q ≠ f (l.getD i d) := by
  intro l
  induction l with
  | nil => intro i hi; simp at hi
  | cons a t ih =>
    intro i hi hnd q hq
    rw [List.map_cons, List.nodup_cons] at hnd
    cases i with
    | zero =>
      simp only [List.eraseIdx_cons_zero] at hq
      simp only [List.getD_cons_zero]
      intro he
      exact hnd.1 (he ▸ List.mem_map_of_mem f hq)
    | succ j =>
      have hj : j < t.length := by simpa using hi
      simp only [List.eraseIdx_cons_succ, List.mem_cons] at hq
      simp only [List.getD_cons_succ]
      rcases hq with hq | hq
      · subst hq
        intro he
        apply hnd.1
        rw [he]
        apply List.mem_map_of_mem
        rw [List.getD_eq_getElem t d hj]
        exact List.getElem_mem hj
      · exact ih j hj hnd.2 q hq

/-! ## Active-user resolution -/

/-- C1, as stated, fails: with the non-empty collection of `exStore`, whose
active record has no session handle, and a failing re-authentication,
`ActiveUser` returns the nil reference. -/
theorem C1_counterexample :
    elems exStore.UserList ≠ [] ∧ (ActiveUser envFail exStore).1 = UserRef.null := by
  decide

/-- C1 (amended): for a non-empty collection `ActiveUser` returns nil exactly
when nothing is cached, the first record matching the active ID has no session
handle and its re-authentication fails; it returns the placeholder exactly when
nothing is cached and no record matches; every other result is the cached
record or a record of the collection. -/
theorem C1_ActiveUser_result (env : Remote) (c : PanConfig)
    (hne : elems c.UserList ≠ []) :
    ((ActiveUser env c).1 = UserRef.null ↔
      c.activeUser = none ∧ ∃ u,
        (elems c.UserList).find? (fun u => (c.heap u).UID == c.ActiveUID) = some u ∧
        (c.heap u).panClient = none ∧
        env.SetupUserByCookie (c.heap u).WebToken (c.heap u).AppToken = none) ∧
    ((ActiveUser env c).1 = UserRef.placeholder ↔
      c.activeUser = none ∧
        (elems c.UserList).find? (fun u => (c.heap u).UID == c.ActiveUID) = none) ∧
    (∀ p, (ActiveUser env c).1 = UserRef.record p →
      c.activeUser = some p ∨ (p ∈ elems c.UserList ∧ (c.heap p).UID = c.ActiveUID)) := by
  cases h0 : c.activeUser with
  | some q =>
    rw [ActiveUser_cached env c q h0]
    simp
  | none =>
    cases h1 : c.UserList with
    | none => simp [h1, elems] at hne
    | some l =>
      simp only [elems, Option.getD_some]
      cases h2 : l.find? (fun u => (c.heap u).UID == c.ActiveUID) with
      | none =>
        rw [ActiveUser_nomatch env c l h0 h1 h2]
        simp
      | some u =>
        have hmem : u ∈ l := List.mem_of_find?_eq_some h2
        have huid : (c.heap u).UID = c.ActiveUID := by
          have := List.find?_some h2
          simpa using this
        cases h3 : (c.heap u).panClient with
        | some cl =>
          rw [ActiveUser_live env c l u cl h0 h1 h2 h3]
          refine ⟨⟨fun h => by simp at h, fun h => ?_⟩, ⟨fun h => by simp at h, fun h => ?_⟩, ?_⟩
          · obtain ⟨_, v, hv, hv3, _⟩ := h
            cases hv
            rw [h3] at hv3
            cases hv3
          · cases h.2
          · intro p hp
            cases hp
            exact Or.inr ⟨hmem, huid⟩
        | none =>
          rw [ActiveUser_restore env c l u h0 h1 h2 h3]
          rcases restoreClient_result env { c with activeUser := some u } u with ⟨hs, hr⟩ | ⟨hs, hr⟩
          · rw [hr]
            refine ⟨⟨fun _ => ⟨trivial, u, rfl, h3, hs⟩, fun _ => rfl⟩,
              ⟨fun h => by simp at h, fun h => ?_⟩, ?_⟩
            · cases h.2
            · intro p hp
              cases hp
          · rw [hr]
            refine ⟨⟨fun h => by simp at h, fun h => ?_⟩, ⟨fun h => by simp at h, fun h => ?_⟩, ?_⟩
            · obtain ⟨_, v, hv, _, hv4⟩ := h
              cases hv
              exact absurd hv4 hs
            · cases h.2
            · intro p hp
              cases hp
              exact Or.inr ⟨hmem, huid⟩

/-- Witness for C1 (amended): on `exStore` with a succeeding re-authentication
the result is the record at address 0, a member of the collection. -/
theorem C1_ActiveUser_result_witness :
    elems exStore.UserList ≠ [] ∧ (ActiveUser envOk exStore).1 = UserRef.record 0 ∧
      (0 ∈ elems exStore.UserList ∧ (exStore.heap 0).UID = exStore.ActiveUID) := by
  refine ⟨by decide, by decide, ?_⟩
  have h := (C1_ActiveUser_result envOk exStore (by decide)).2.2 0 (by decide)
  rcases h with h | h
  · exact absurd h (by decide)
  · exact h

/-- C10: when nothing is cached, the record matching the active ID has no
session handle and its re-authentication fails, `ActiveUser` returns nil but
leaves that record cached (and nothing else changed); the next call, whatever
the collaborators would answer, returns that record, still without a session
handle, and leaves the store as it is, so that no re-authentication result is
used. -/
theorem C10_failed_restore_stays_cached (env env2 : Remote) (c : PanConfig) (u : Ptr)
    (h0 : c.activeUser = none)
    (h2 : (elems c.UserList).find? (fun u => (c.heap u).UID == c.ActiveUID) = some u)
    (h3 : (c.heap u).panClient = none)
    (h4 : env.SetupUserByCookie (c.heap u).WebToken (c.heap u).AppToken = none) :
    (ActiveUser env c).1 = UserRef.null ∧
    (ActiveUser env c).2 = { c with activeUser := some u } ∧
    ActiveUser env2 (ActiveUser env c).2 = (UserRef.record u, (ActiveUser env c).2) ∧
    ((ActiveUser env c).2.heap u).panClient = none := by
  cases h1 : c.UserList with
  | none => simp [h1, elems] at h2
  | some l =>
    simp only [h1, elems, Option.getD_some] at h2
    have hres : ActiveUser env c = (UserRef.null, { c with activeUser := some u }) := by
      rw [ActiveUser_restore env c l u h0 h1 h2 h3]
      rcases restoreClient_result env { c with activeUser := some u } u with ⟨_, hr⟩ | ⟨hs, _⟩
      · exact hr
      · exact absurd h4 hs
    rw [hres]
    exact ⟨rfl, by simp only [h1], ActiveUser_cached env2 _ u rfl, h3⟩

/-- Witness for C10 on `exStore`: the first call fails to restore, the second
returns the record at address 0 even though re-authentication would succeed. -/
theorem C10_failed_restore_stays_cached_witness :
    (ActiveUser envFail exStore).1 = UserRef.null ∧
    ActiveUser envOk (ActiveUser envFail exStore).2 =
      (UserRef.record 0, (ActiveUser envFail exStore).2) :=
  have h := C10_failed_restore_stays_cached envFail envOk exStore 0 rfl (by decide)
    (by decide) rfl
  ⟨h.1, h.2.2.1⟩

/-! ## User management -/

/-- C2: in a store with at least two records with pairwise distinct account IDs
whose active ID is the ID of one of them, `DeleteUser` of the active ID returns
the removed record (unchanged, and no longer in the collection), `NumLogins`
decreases by exactly one, the remaining collection is non-empty and a
sub-sequence of the old one, the active ID becomes the ID of its first record,
and exactly one remaining record has that ID, whatever the collaborators
answer. -/
theorem C2_DeleteUser_active (env : Remote) (c : PanConfig)
    (hnd : (uids c).Nodup) (hlen : 2 ≤ NumLogins c) (hact : c.ActiveUID ∈ uids c) :
    ∃ p first tail,
      (DeleteUser env c c.ActiveUID).1 = Except.ok p ∧
      p ∈ elems c.UserList ∧ (c.heap p).UID = c.ActiveUID ∧
      (DeleteUser env c c.ActiveUID).2.heap p = c.heap p ∧
      p ∉ elems (DeleteUser env c c.ActiveUID).2.UserList ∧
      NumLogins (DeleteUser env c c.ActiveUID).2 + 1 = NumLogins c ∧
      elems (DeleteUser env c c.ActiveUID).2.UserList = first :: tail ∧
      List.Sublist (first :: tail) (elems c.UserList) ∧
      (DeleteUser env c c.ActiveUID).2.ActiveUID =
        ((DeleteUser env c c.ActiveUID).2.heap first).UID ∧
      (uids (DeleteUser env c c.ActiveUID).2).count
        (DeleteUser env c c.ActiveUID).2.ActiveUID = 1 := by
  obtain ⟨a, ha, hau⟩ := List.mem_map.mp hact
  cases h : (elems c.UserList).findIdx? (fun u => (c.heap u).UID == c.ActiveUID) with
  | none =>
    rw [List.findIdx?_eq_none_iff] at h
    have := h a ha
    simp [hau] at this
  | some idx =>
    obtain ⟨hidx, hpi, _⟩ := List.findIdx?_eq_some_iff_getElem.mp h
    have hget : (elems c.UserList).getD idx 0 = (elems c.UserList)[idx] :=
      List.getD_eq_getElem _ 0 hidx
    have hpuid : (c.heap ((elems c.UserList).getD idx 0)).UID = c.ActiveUID := by
      rw [hget]; simpa using hpi
    have hlenr : ((elems c.UserList).eraseIdx idx).length + 1 = (elems c.UserList).length := by
      rw [List.length_eraseIdx_of_lt hidx]
      omega
    have hother := image_ne_of_mem_eraseIdx (fun q => (c.heap q).UID) 0
      (elems c.UserList) idx hidx hnd
    rw [DeleteUser_found env c c.ActiveUID idx h]
    cases hr : (elems c.UserList).eraseIdx idx with
    | nil =>
      rw [hr] at hlenr
      unfold NumLogins at hlen
      simp at hlenr
      omega
    | cons first tail =>
      have hfm : first ∈ (elems c.UserList).eraseIdx idx := by rw [hr]; simp
      have hs := SetActiveUser_spec env
        { c with UserList := some (first :: tail), ActiveUID := 0, activeUser := none } first
      have hlist := hs.2.2.1 ⟨first, by simp [elems], rfl⟩
      have hne : (c.heap ((elems c.UserList).getD idx 0)).UID ≠ (c.heap first).UID :=
        fun he => hother first hfm he.symm
      refine ⟨(elems c.UserList).getD idx 0, first, tail, rfl, ?_, hpuid, ?_, ?_, ?_, ?_, ?_,
        ?_, ?_⟩
      · rw [hget]; exact List.getElem_mem hidx
      · exact hs.2.2.2.2 _ hne
      · simp only []
        rw [hlist]
        simp only [elems, Option.getD_some]
        intro hmem
        rw [← hr] at hmem
        exact hother _ hmem rfl
      · simp only [NumLogins]
        rw [hlist]
        simp only [elems, Option.getD_some]
        rw [← hr]
        exact hlenr
      · simp only []
        rw [hlist]
        rfl
      · rw [← hr]
        exact List.eraseIdx_sublist _ idx
      · simp only []
        rw [hs.1, hs.2.1 first]
      · have hnd2 : (uids { c with UserList := some (first :: tail), ActiveUID := 0,
                                     activeUser := none }).Nodup := by
          unfold uids
          simp only [elems, Option.getD_some]
          rw [← hr]
          exact List.Nodup.sublist ((List.eraseIdx_sublist _ idx).map _) hnd
        have hinv := SetActiveUser_inv env
          { c with UserList := some (first :: tail), ActiveUID := 0, activeUser := none }
          first hnd2
        refine List.count_eq_one_of_mem hinv.1 ?_
        rw [uids_of_frame _ _ hs.2.1]
        simp only []
        rw [hlist, hs.1]
        simp [elems]

/-- Witness for C2, the scenario of the specification: accounts 100 and 200,
account 100 active; `DeleteUser(100)` returns the record of account 100 (at
address 0), the active ID becomes 200 and `NumLogins` is 1. -/
theorem C2_DeleteUser_active_witness :
    (DeleteUser envOk exStore 100).1 = Except.ok 0 ∧
    (exStore.heap 0).UID = 100 ∧
    (DeleteUser envOk exStore 100).2.ActiveUID = 200 ∧
    NumLogins (DeleteUser envOk exStore 100).2 = 1 ∧
    (uids (DeleteUser envOk exStore 100).2).count 200 = 1 := by
  have hnd : (uids exStore).Nodup := by decide
  have h := C2_DeleteUser_active envOk exStore hnd (by decide) (by decide)
  obtain ⟨p, first, tail, _, _, _, _, _, _, _, _, _, hcount⟩ := h
  have hact : (DeleteUser envOk exStore exStore.ActiveUID).2.ActiveUID = 200 := by decide
  rw [hact] at hcount
  exact ⟨rfl, by decide, by decide, by decide, hcount⟩

/-- C3: the store invariant (no two records of the collection share an account
ID, and the active ID is zero or the ID of a record of the collection) is
preserved by `SetActiveUser`, `SwitchUser` and `DeleteUser`, for every argument,
on success and on failure, whatever the collaborators answer. -/
theorem C3_store_invariant_preserved (env : Remote) (c : PanConfig) (hinv : StoreInv c) :
    (∀ user, StoreInv (SetActiveUser env c user).2) ∧
    (∀ uid username, StoreInv (SwitchUser env c uid username).2) ∧
    (∀ uid, StoreInv (DeleteUser env c uid).2) :=
  ⟨fun user => SetActiveUser_inv env c user hinv.1,
   fun uid username => SwitchUser_inv env c uid username hinv,
   fun uid => DeleteUser_inv env c uid hinv⟩

/-- Witness for C3 on `exStore`: the invariant holds there, and after adding
the record at address 2, after a failing switch and after deleting account
100. -/
theorem C3_store_invariant_preserved_witness :
    StoreInv exStore ∧ StoreInv (SetActiveUser envOk exStore 2).2 ∧
    (SwitchUser envOk exStore 7 "carol").1 = Except.error ConfigError.userNotFound ∧
    StoreInv (SwitchUser envOk exStore 7 "carol").2 ∧
    StoreInv (DeleteUser envFail exStore 100).2 :=
  have hinv : StoreInv exStore := ⟨by decide, by decide⟩
  have h := C3_store_invariant_preserved envOk exStore hinv
  have h2 := C3_store_invariant_preserved envFail exStore hinv
  ⟨hinv, h.1 2, rfl, h.2.1 7 "carol", h2.2.2 100⟩

/-- C4: `SetActiveUser` is idempotent on the collection size and the active ID:
for every store and every record `r`, a second `SetActiveUser(r)` right after
the first leaves the collection (hence `NumLogins`) unchanged, and the active
ID is the account ID of `r` after each call, whatever the collaborators
answer. -/
theorem C4_SetActiveUser_idempotent (env env2 : Remote) (c : PanConfig) (r : Ptr) :
    NumLogins (SetActiveUser env2 (SetActiveUser env c r).2 r).2 =
      NumLogins (SetActiveUser env c r).2 ∧
    (SetActiveUser env2 (SetActiveUser env c r).2 r).2.UserList =
      (SetActiveUser env c r).2.UserList ∧
    (SetActiveUser env c r).2.ActiveUID = (c.heap r).UID ∧
    (SetActiveUser env2 (SetActiveUser env c r).2 r).2.ActiveUID = (c.heap r).UID ∧
    ((SetActiveUser env2 (SetActiveUser env c r).2 r).2.heap r).UID = (c.heap r).UID := by
  have hs := SetActiveUser_spec env c r
  have hs2 := SetActiveUser_spec env2 (SetActiveUser env c r).2 r
  have hex : ∃ u ∈ elems (SetActiveUser env c r).2.UserList,
      ((SetActiveUser env c r).2.heap u).UID = ((SetActiveUser env c r).2.heap r).UID := by
    by_cases h : ∃ u ∈ elems c.UserList, (c.heap u).UID = (c.heap r).UID
    · obtain ⟨u, hu1, hu2⟩ := h
      refine ⟨u, ?_, ?_⟩
      · rw [hs.2.2.1 ⟨u, hu1, hu2⟩]; exact hu1
      · rw [hs.2.1 u, hs.2.1 r]; exact hu2
    · have hall : ∀ u ∈ elems c.UserList, (c.heap u).UID ≠ (c.heap r).UID :=
        fun u hu1 hu2 => h ⟨u, hu1, hu2⟩
      refine ⟨r, ?_, rfl⟩
      rw [hs.2.2.2.1 hall]
      simp [elems]
  have hlist := hs2.2.2.1 hex
  refine ⟨?_, hlist, hs.1, ?_, ?_⟩
  · unfold NumLogins
    rw [hlist]
  · rw [hs2.1, hs.2.1 r]
  · rw [hs2.2.1 r, hs.2.1 r]

/-! ## Persistence -/

/-- After `Truncate(n)` the file is `n` bytes long. -/
theorem truncate_length (content : List Nat) (n : Nat) : (truncate content n).length = n := by
  simp only [truncate, List.length_append, List.length_take, List.length_replicate]
  omega

/-- Writing as many bytes as the file holds at offset 0 replaces the content. -/
theorem writeAt_start (content data : List Nat) (h : content.length = data.length) :
    writeAt content 0 data = data := by
  simp [writeAt, h]

/-- A successful `lazyOpenConfigFile` changes at most the file handle, which is
open afterwards. -/
theorem lazyOpenConfigFile_ok (h : Host) (c : PanConfig)
    (hok : (lazyOpenConfigFile h c).1 = none) :
    ∃ pos, (lazyOpenConfigFile h c).2 = { c with configFile := some pos } := by
  unfold lazyOpenConfigFile at hok ⊢
  cases hcf : c.configFile with
  | some pos =>
    refine ⟨pos, ?_⟩
    simp only []
    rw [← hcf]
  | none =>
    rw [hcf] at hok
    cases ho : h.openFile <;> rw [ho] at hok <;> simp at hok
    exact ⟨0, rfl⟩

/-- The store after a successful `Save`: the in-memory fields are untouched and
the file holds exactly the serialized document. -/
theorem Save_ok (h : Host) (c : PanConfig) (hok : (Save h c).1 = Outcome.ok) :
    ∃ data, h.marshal (docOf c) = some data ∧
      (Save h c).2 = { c with configFile := some data.length, disk := data } := by
  unfold Save fix at hok ⊢
  cases hl : lazyOpenConfigFile h c with
  | mk e c1 =>
    rw [hl] at hok
    cases e with
    | some e => simp at hok
    | none =>
      obtain ⟨pos, hc1⟩ := lazyOpenConfigFile_ok h c (by rw [hl])
      rw [hl] at hc1
      simp only [] at hc1
      subst hc1
      simp only [] at hok ⊢
      have hdoc : docOf { c with configFile := some pos } = docOf c := rfl
      rw [hdoc] at hok ⊢
      cases hm : h.marshal (docOf c) with
      | none => rw [hm] at hok; simp at hok
      | some data =>
        rw [hm] at hok
        simp only [] at hok ⊢
        by_cases ht : h.truncateFails = true
        · simp [ht] at hok
        · by_cases hs : h.seekFails = true
          · simp [ht, hs] at hok
          · cases hw : h.writeFails with
            | some k => simp [ht, hs, hw] at hok
            | none =>
              refine ⟨data, rfl, ?_⟩
              simp only [ht, hs, Bool.false_eq_true, if_false, fileWrite, fileSeekStart,
                fileTruncate, Nat.zero_add]
              rw [writeAt_start _ _ (truncate_length _ _)]

/-- The step `initDefaultConfig` writes only the save directory. -/
theorem initDefaultConfig_frame (h : Host) (c : PanConfig) :
    initDefaultConfig h c = { c with SaveDir := (initDefaultConfig h c).SaveDir } := by
  unfold initDefaultConfig
  split
  · rfl
  · split
    · rfl
    · cases h.HOME <;> rfl

/-- When the file can be opened, inspected and positioned and is not empty,
`init` hands the whole file content to the decoder, together with the
in-memory fields in which the save directory has been reset to the host
default, and keeps whatever the decoder leaves behind. -/
theorem init_decodes (h : Host) (c : PanConfig) (hpath : c.configFilePath ≠ "")
    (hopen : c.configFile ≠ none ∨ h.openFile = OpenResult.ok)
    (hstat : h.statFails = false) (hne : c.disk ≠ []) (hseek : h.seekFails = false) :
    init h c =
      (if (h.unmarshal c.disk c.ActiveUID c.UserList (initDefaultConfig h c).SaveDir
            c.heap).err = true
        then Outcome.error ConfigError.ErrConfigContentsParseError else Outcome.ok,
       { c with
          ActiveUID := (h.unmarshal c.disk c.ActiveUID c.UserList
            (initDefaultConfig h c).SaveDir c.heap).ActiveUID,
          UserList := (h.unmarshal c.disk c.ActiveUID c.UserList
            (initDefaultConfig h c).SaveDir c.heap).UserList,
          SaveDir := (h.unmarshal c.disk c.ActiveUID c.UserList
            (initDefaultConfig h c).SaveDir c.heap).SaveDir,
          heap := (h.unmarshal c.disk c.ActiveUID c.UserList
            (initDefaultConfig h c).SaveDir c.heap).heap,
          configFile := some ((h.unmarshal c.disk c.ActiveUID c.UserList
            (initDefaultConfig h c).SaveDir c.heap).consumed) }) := by
  have hlen : ¬ c.disk.length = 0 := fun h0 => hne (List.length_eq_zero.mp h0)
  unfold init
  rw [if_neg hpath, initDefaultConfig_frame h c]
  generalize (initDefaultConfig h c).SaveDir = sd
  unfold loadConfigFromFile lazyOpenConfigFile
  cases hcf : c.configFile with
  | some pos =>
    simp only [hstat, hseek, hlen, Bool.false_eq_true, if_false, fileSeekStart, fileRest,
      List.drop_zero, Option.map_some', Nat.zero_add]
    split <;> rfl
  | none =>
    rcases hopen with ho | ho
    · exact absurd hcf ho
    · simp only [ho, hstat, hseek, hlen, Bool.false_eq_true, if_false, fileSeekStart, fileRest,
        List.drop_zero, Option.map_some', Nat.zero_add]
      split <;> rfl

/-- What a successful `init` over a non-empty file implies about the host. -/
theorem init_ok_host (h : Host) (c : PanConfig) (hne : c.disk ≠ [])
    (hok : (init h c).1 = Outcome.ok) :
    c.configFilePath ≠ "" ∧ (c.configFile ≠ none ∨ h.openFile = OpenResult.ok) ∧
      h.statFails = false ∧ h.seekFails = false := by
  have hlen : ¬ c.disk.length = 0 := fun h0 => hne (List.length_eq_zero.mp h0)
  unfold init at hok
  by_cases hpath : c.configFilePath = ""
  · rw [if_pos hpath] at hok
    cases hok
  · rw [if_neg hpath, initDefaultConfig_frame h c] at hok
    generalize (initDefaultConfig h c).SaveDir = sd at hok
    unfold loadConfigFromFile lazyOpenConfigFile at hok
    refine ⟨hpath, ?_⟩
    cases hcf : c.configFile with
    | some pos =>
      simp only [hcf] at hok
      refine ⟨Or.inl (by simp), ?_⟩
      cases hst : h.statFails
      · cases hsk : h.seekFails
        · exact ⟨rfl, rfl⟩
        · simp [hst, hsk, hlen] at hok
      · simp [hst] at hok
    | none =>
      simp only [hcf] at hok
      cases ho : h.openFile <;> simp only [ho] at hok <;> try (cases hok)
      refine ⟨Or.inr rfl, ?_⟩
      cases hst : h.statFails
      · cases hsk : h.seekFails
        · exact ⟨rfl, rfl⟩
        · simp [hst, hsk, hlen] at hok
      · simp [hst] at hok

/-- The host default written by `initDefaultConfig` does not depend on the
store. -/
theorem initDefaultConfig_SaveDir (h : Host) (c c1 : PanConfig) :
    (initDefaultConfig h c).SaveDir = (initDefaultConfig h c1).SaveDir := by
  unfold initDefaultConfig
  split
  · rfl
  · split
    · rfl
    · cases h.HOME <;> rfl

/-- C5, as stated, fails, in two ways.  `exLoaded` was loaded with the save
directory `/data/dl`, active ID 100 and two records.  Reloading it from a file
with invalid content fails with the parse error; with a decoder that writes
nothing (`hostEx`) the save directory is nevertheless the host default
`/home/u/Downloads` afterwards, and with a decoder that decodes as it reads
(`hostStream`) the active ID and the collection are changed as well. -/
theorem C5_counterexample :
    exLoaded.disk ≠ [] ∧
    (Reload hostEx exLoaded).1 = Outcome.error ConfigError.ErrConfigContentsParseError ∧
    exLoaded.SaveDir = "/data/dl" ∧
    (Reload hostEx exLoaded).2.SaveDir = "/home/u/Downloads" ∧
    (Reload hostEx exLoaded).2.SaveDir ≠ exLoaded.SaveDir ∧
    (Reload hostStream exLoaded).1 = Outcome.error ConfigError.ErrConfigContentsParseError ∧
    exLoaded.ActiveUID = 100 ∧ (Reload hostStream exLoaded).2.ActiveUID = 7 ∧
    exLoaded.UserList = some [0, 1] ∧ (Reload hostStream exLoaded).2.UserList = some [0] ∧
    (exLoaded.heap 0).Nickname = "" ∧
    ((Reload hostStream exLoaded).2.heap 0).Nickname = "half" := by
  decide

/-- C5 (amended): loading a non-empty file that the decoder rejects returns the
parse error (via `Init` and via `Reload`) and leaves the cached active user,
the backing path and the file content as they were.  The active ID, the
collection, the records and the save directory are not restored: they are what
the decoder, run on the whole file content against the live structure in which
the save directory has been reset to the host default, had written when it
failed.  In particular the save directory held before the call has no
influence on the result. -/
theorem C5_failed_load_state (h : Host) (c : PanConfig)
    (hpath : c.configFilePath ≠ "")
    (hopen : c.configFile ≠ none ∨ h.openFile = OpenResult.ok)
    (hstat : h.statFails = false) (hne : c.disk ≠ []) (hseek : h.seekFails = false)
    (herr : (h.unmarshal c.disk c.ActiveUID c.UserList (initDefaultConfig h c).SaveDir
      c.heap).err = true) :
    (Reload h c).1 = Outcome.error ConfigError.ErrConfigContentsParseError ∧
    (Init h c).1 = Outcome.error ConfigError.ErrConfigContentsParseError ∧
    (Reload h c).2.activeUser = c.activeUser ∧
    (Reload h c).2.configFilePath = c.configFilePath ∧
    (Reload h c).2.disk = c.disk ∧
    (Reload h c).2.ActiveUID = (h.unmarshal c.disk c.ActiveUID c.UserList
      (initDefaultConfig h c).SaveDir c.heap).ActiveUID ∧
    (Reload h c).2.UserList = (h.unmarshal c.disk c.ActiveUID c.UserList
      (initDefaultConfig h c).SaveDir c.heap).UserList ∧
    (Reload h c).2.heap = (h.unmarshal c.disk c.ActiveUID c.UserList
      (initDefaultConfig h c).SaveDir c.heap).heap ∧
    (Reload h c).2.SaveDir = (h.unmarshal c.disk c.ActiveUID c.UserList
      (initDefaultConfig h c).SaveDir c.heap).SaveDir ∧
    (∀ sd, Reload h { c with SaveDir := sd } = Reload h c) := by
  have hi := init_decodes h c hpath hopen hstat hne hseek
  refine ⟨?_, ?_, ?_, ?_, ?_, ?_, ?_, ?_, ?_, ?_⟩
  · unfold Reload; rw [hi, if_pos herr]
  · unfold Init; rw [hi, if_pos herr]
  · unfold Reload; rw [hi]
  · unfold Reload; rw [hi]
  · unfold Reload; rw [hi]
  · unfold Reload; rw [hi]
  · unfold Reload; rw [hi]
  · unfold Reload; rw [hi]
  · unfold Reload; rw [hi]
  · intro sd
    have hi2 := init_decodes h { c with SaveDir := sd } hpath hopen hstat hne hseek
    have hsd := initDefaultConfig_SaveDir h { c with SaveDir := sd } c
    unfold Reload
    rw [hi, hi2, hsd]

/-- Witness for C5 (amended) on `exLoaded`: with the streaming decoder the
reload fails, keeps the decoder's active ID 7, and gives the same result when
the store held another save directory. -/
theorem C5_failed_load_state_witness :
    (Reload hostStream exLoaded).1 = Outcome.error ConfigError.ErrConfigContentsParseError ∧
    (Reload hostStream exLoaded).2.ActiveUID = 7 ∧
    (Reload hostStream exLoaded).2.disk = exLoaded.disk ∧
    Reload hostStream { exLoaded with SaveDir := "/elsewhere" } = Reload hostStream exLoaded :=
  have h := C5_failed_load_state hostStream exLoaded (by decide) (Or.inl (by decide))
    rfl (by decide) rfl rfl
  ⟨h.1, h.2.2.2.2.2.1.trans (by decide), h.2.2.2.2.1, h.2.2.2.2.2.2.2.2.2 "/elsewhere"⟩

/-- C6: after every successful `Save` the content of the backing file is
exactly the serialized document of the in-memory structure (same bytes, same
length), whatever the file held before and wherever its handle stood, and the
in-memory document is unchanged. -/
theorem C6_Save_file_is_document (h : Host) (c : PanConfig)
    (hok : (Save h c).1 = Outcome.ok) :
    ∃ data, h.marshal (docOf c) = some data ∧ (Save h c).2.disk = data ∧
      (Save h c).2.disk.length = data.length ∧ docOf (Save h c).2 = docOf c := by
  obtain ⟨data, hm, hs⟩ := Save_ok h c hok
  rw [hs]
  exact ⟨data, hm, rfl, rfl, rfl⟩

/-- Witness for C6: saving `exSaved`, whose file held six bytes with the
handle at offset 4, leaves exactly the three bytes of the document; so does
saving over a one-byte file. -/
theorem C6_Save_file_is_document_witness :
    (Save hostEx exSaved).1 = Outcome.ok ∧ (Save hostEx exSaved).2.disk = exBytes ∧
    (Save hostEx { exSaved with disk := [9], configFile := none }).2.disk = exBytes :=
  have hok : (Save hostEx exSaved).1 = Outcome.ok := by decide
  have h := C6_Save_file_is_document hostEx exSaved hok
  have hm : hostEx.marshal (docOf exSaved) = some exBytes := by decide
  ⟨hok, h.elim (fun data hd => by
      have hb : some data = some exBytes := hd.1.symm.trans hm
      cases hb
      exact hd.2.1), by decide⟩

/-! ## The JSON codec: reading back what was written -/

theorem ofCodes_codes (s : String) : ofCodes (codes s) = s := by
  simp [ofCodes, codes, List.map_map, Function.comp_def]

theorem leDigits_lt (f : Nat) : ∀ n, ∀ d ∈ leDigits f n, d < 10 := by
  induction f with
  | zero => intro n d hd; simp [leDigits] at hd
  | succ f ih =>
    intro n d hd
    unfold leDigits at hd
    split at hd
    · simp at hd; omega
    · rcases List.mem_cons.mp hd with h | h
      · omega
      · exact ih _ d h

theorem valueLE_leDigits (f : Nat) : ∀ n, n < f → valueLE (leDigits f n) = n := by
  induction f with
  | zero => intro n hn; omega
  | succ f ih =>
    intro n hn
    unfold leDigits
    split
    · simp [valueLE]
    · simp only [valueLE]
      rw [ih (n / 10) (by omega)]
      omega

theorem leDigits_ne_nil (f n : Nat) : leDigits (f + 1) n ≠ [] := by
  unfold leDigits
  split <;> simp

theorem takeWhile_digits (l rest : List Nat) (hl : ∀ c ∈ l, isDigit c = true)
    (hr : noLeadingDigit rest) :
    (l ++ rest).takeWhile isDigit = l ∧ (l ++ rest).dropWhile isDigit = rest := by
  induction l with
  | nil =>
    cases rest with
    | nil => simp
    | cons c r =>
      have hc : isDigit c = false := hr c rfl
      simp [List.takeWhile, List.dropWhile, hc]
  | cons a t ih =>
    have ha : isDigit a = true := hl a (by simp)
    have := ih (fun c hc => hl c (by simp [hc]))
    simp [List.takeWhile, List.dropWhile, ha, this.1, this.2]

theorem digitsOf_isDigit (n : Nat) : ∀ c ∈ digitsOf n, isDigit c = true := by
  intro c hc
  simp only [digitsOf, List.mem_map, List.mem_reverse] at hc
  obtain ⟨d, hd, rfl⟩ := hc
  have := leDigits_lt (n + 1) n d hd
  simp [isDigit]
  omega

theorem digitsOf_ne_nil (n : Nat) : digitsOf n ≠ [] := by
  simp [digitsOf, leDigits_ne_nil]

theorem lexNum_digitsOf (n : Nat) (rest : List Nat) (hr : noLeadingDigit rest) :
    lexNum (digitsOf n ++ rest) = (n, rest) := by
  have h := takeWhile_digits (digitsOf n) rest (digitsOf_isDigit n) hr
  unfold lexNum
  rw [h.1, h.2]
  have hv : ((digitsOf n).map (fun c => c - 48)).reverse = leDigits (n + 1) n := by
    simp [digitsOf, List.map_map, Function.comp_def]
  rw [hv, valueLE_leDigits (n + 1) n (by omega)]

theorem lexString_quote (rest : List Nat) : lexString (34 :: rest) = some ([], rest) := by
  rw [lexString.eq_def]
  simp

theorem lexString_escaped (e : Nat) (cs : List Nat) (he : e = 34 ∨ e = 92) :
    lexString (92 :: e :: cs) = (lexString cs).map (fun r => (e :: r.1, r.2)) := by
  rw [lexString.eq_def]
  simp [he]

theorem lexString_plain (c : Nat) (cs : List Nat) (h1 : c ≠ 34) (h2 : c ≠ 92) :
    lexString (c :: cs) = (lexString cs).map (fun r => (c :: r.1, r.2)) := by
  rw [lexString.eq_def]
  simp [h1, h2]

theorem lexString_escape (s rest : List Nat) :
    lexString (escape s ++ 34 :: rest) = some (s, rest) := by
  induction s with
  | nil => exact lexString_quote rest
  | cons c cs ih =>
    unfold escape
    by_cases h : c = 34 ∨ c = 92
    · rw [if_pos h]
      simp only [List.cons_append]
      rw [lexString_escaped c _ h, ih]
      rfl
    · rw [if_neg h]
      have h1 : c ≠ 34 := fun e => h (Or.inl e)
      have h2 : c ≠ 92 := fun e => h (Or.inr e)
      simp only [List.cons_append]
      rw [lexString_plain c _ h1 h2, ih]
      rfl

theorem lexToks_ws (ws rest : List Nat) (hws : ∀ c ∈ ws, isWs c = true) (f : Nat) :
    lexToks (f + ws.length) (ws ++ rest) = lexToks f rest := by
  induction ws with
  | nil => simp
  | cons a t ih =>
    have ha : isWs a = true := hws a (by simp)
    have := ih (fun c hc => hws c (by simp [hc]))
    simp only [List.length_cons, List.cons_append]
    rw [← Nat.add_assoc]
    simp only [lexToks, ha, if_true]
    exact this

theorem sep_isWs (d : Nat) (prev : Option Tok) (t : Tok) : ∀ c ∈ sep d prev t, isWs c = true := by
  intro c hc
  unfold sep at hc
  split at hc
  · simp at hc
  · split at hc
    · simp at hc
    · split at hc
      · simp at hc; subst hc; rfl
      · split at hc
        · split at hc
          · simp at hc
          · rcases List.mem_cons.mp hc with h | h
            · subst h; rfl
            · rw [List.eq_of_mem_replicate h]; rfl
        · rcases List.mem_cons.mp hc with h | h
          · subst h; rfl
          · rw [List.eq_of_mem_replicate h]; rfl

theorem layout_after_num (d n : Nat) (ts : List Tok) :
    noLeadingDigit (layout d (some (Tok.num n)) ts) := by
  intro c hc
  cases ts with
  | nil => simp [layout] at hc
  | cons t ts =>
    cases t <;>
      simp [layout, sep, Tok.isPunct, Tok.isClose, Tok.isOpen, Tok.text] at hc <;>
      (try (subst hc; rfl))

theorem text_length_pos (t : Tok) : 1 ≤ t.text.length := by
  cases t <;> simp [Tok.text]
  rename_i n
  have := digitsOf_ne_nil n
  cases h : digitsOf n with
  | nil => exact absurd h this
  | cons a l => simp

theorem nextTok_digit (c : Nat) (cs : List Nat) (hc : isDigit c = true) :
    nextTok c cs = some (Tok.num (lexNum (c :: cs)).1, (lexNum (c :: cs)).2) := by
  have h1 : 48 ≤ c ∧ c ≤ 57 := by simpa [isDigit] using hc
  have e1 : c ≠ 123 := by omega
  have e2 : c ≠ 125 := by omega
  have e3 : c ≠ 91 := by omega
  have e4 : c ≠ 93 := by omega
  have e5 : c ≠ 58 := by omega
  have e6 : c ≠ 44 := by omega
  have e7 : c ≠ 34 := by omega
  unfold nextTok
  simp only [e1, e2, e3, e4, e5, e6, e7, if_false, hc, if_true]

theorem isWs_digit (c : Nat) (hc : isDigit c = true) : isWs c = false := by
  have h1 : 48 ≤ c ∧ c ≤ 57 := by simpa [isDigit] using hc
  simp [isWs]; omega

/-- The tokens of an indented text are read back from it. -/
theorem lexToks_layout : ∀ (ts : List Tok) (d : Nat) (prev : Option Tok) (f : Nat),
    (layout d prev ts).length < f → lexToks f (layout d prev ts) = some ts := by
  intro ts
  induction ts with
  | nil =>
    intro d prev f hf
    cases f with
    | zero => simp [layout] at hf
    | succ f => simp [layout, lexToks]
  | cons t ts ih =>
    intro d prev f hf
    simp only [layout, List.length_append] at hf ⊢
    have htext := text_length_pos t
    obtain ⟨g, rfl⟩ : ∃ g, f = g + (sep d prev t).length :=
      ⟨f - (sep d prev t).length, by omega⟩
    rw [lexToks_ws _ _ (sep_isWs d prev t) g]
    obtain ⟨k, rfl⟩ : ∃ k, g = k + 1 := ⟨g - 1, by omega⟩
    have ihk := ih (depthAfter d t) (some t) k (by omega)
    cases t with
    | lbrace => simp [Tok.text, lexToks, nextTok, isWs, ihk]
    | rbrace => simp [Tok.text, lexToks, nextTok, isWs, ihk]
    | lbrack => simp [Tok.text, lexToks, nextTok, isWs, ihk]
    | rbrack => simp [Tok.text, lexToks, nextTok, isWs, ihk]
    | colon => simp [Tok.text, lexToks, nextTok, isWs, ihk]
    | comma => simp [Tok.text, lexToks, nextTok, isWs, ihk]
    | null => simp [Tok.text, lexToks, nextTok, isWs, isDigit, ihk]
    | num n =>
      simp only [Tok.text]
      have hnum := lexNum_digitsOf n (layout (depthAfter d (Tok.num n)) (some (Tok.num n)) ts)
        (layout_after_num _ n ts)
      cases hd : digitsOf n with
      | nil => exact absurd hd (digitsOf_ne_nil n)
      | cons c cs =>
        have hc : isDigit c = true := digitsOf_isDigit n c (by rw [hd]; simp)
        rw [hd] at hnum
        simp only [List.cons_append] at hnum ⊢
        simp [lexToks, isWs_digit c hc, nextTok_digit c _ hc, hnum, ihk]
    | str s =>
      simp only [Tok.text, List.cons_append, List.append_assoc, List.singleton_append]
      simp [lexToks, nextTok, isWs, lexString_escape, ihk]

theorem parseUserMembers_more (f : Nat) (k : List Nat) (v : Tok) (ts : List Tok)
    (u u1 : PanUser)
    (h : userField k (v :: Tok.comma :: ts) u = some (u1, Tok.comma :: ts)) :
    parseUserMembers (f + 1) (Tok.str k :: Tok.colon :: v :: Tok.comma :: ts) u =
      parseUserMembers f ts u1 := by
  simp [parseUserMembers, userMember, h, afterMember]

theorem parseUserMembers_last (f : Nat) (k : List Nat) (v : Tok) (ts : List Tok)
    (u u1 : PanUser)
    (h : userField k (v :: Tok.rbrace :: ts) u = some (u1, Tok.rbrace :: ts)) :
    parseUserMembers (f + 1) (Tok.str k :: Tok.colon :: v :: Tok.rbrace :: ts) u =
      some (u1, ts) := by
  simp [parseUserMembers, userMember, h, afterMember]

theorem userField_num (ts : List Tok) (v : PanUser) (n : Nat) :
    userField (codes "UID") (Tok.num n :: ts) v = some ({ v with UID := n }, ts) ∧
    userField (codes "WorkdirFileEntity") (Tok.num n :: ts) v =
      some ({ v with WorkdirFileEntity := n }, ts) :=
  ⟨rfl, rfl⟩

theorem userField_str (ts : List Tok) (v : PanUser) (s : List Nat) :
    userField (codes "AccountName") (Tok.str s :: ts) v =
      some ({ v with AccountName := ofCodes s }, ts) ∧
    userField (codes "Nickname") (Tok.str s :: ts) v =
      some ({ v with Nickname := ofCodes s }, ts) ∧
    userField (codes "Sex") (Tok.str s :: ts) v = some ({ v with Sex := ofCodes s }, ts) ∧
    userField (codes "WebToken") (Tok.str s :: ts) v =
      some ({ v with WebToken := ofCodes s }, ts) ∧
    userField (codes "AppToken") (Tok.str s :: ts) v =
      some ({ v with AppToken := ofCodes s }, ts) ∧
    userField (codes "Workdir") (Tok.str s :: ts) v =
      some ({ v with Workdir := ofCodes s }, ts) :=
  ⟨rfl, rfl, rfl, rfl, rfl, rfl⟩

/-- A user object written by `userToks` is decoded to the persisted part of
the record. -/
theorem parseUser_userToks (u : PanUser) (rest : List Tok) (f : Nat) (hf : 8 ≤ f) :
    parseUser f (userToks u ++ rest) = some (persisted u, rest) := by
  obtain ⟨k, rfl⟩ : ∃ k, f = k + 8 := ⟨f - 8, by omega⟩
  simp only [userToks, List.cons_append, List.nil_append, parseUser]
  rw [parseUserMembers_more _ _ _ _ _ _ (userField_num _ _ _).1,
    parseUserMembers_more _ _ _ _ _ _ (userField_str _ _ _).1,
    parseUserMembers_more _ _ _ _ _ _ (userField_str _ _ _).2.1,
    parseUserMembers_more _ _ _ _ _ _ (userField_str _ _ _).2.2.1,
    parseUserMembers_more _ _ _ _ _ _ (userField_str _ _ _).2.2.2.1,
    parseUserMembers_more _ _ _ _ _ _ (userField_str _ _ _).2.2.2.2.1,
    parseUserMembers_more _ _ _ _ _ _ (userField_str _ _ _).2.2.2.2.2,
    parseUserMembers_last _ _ _ _ _ _ (userField_num _ _ _).2]
  simp only [ofCodes_codes]
  rfl

/-- The elements of an array written by `usersBody` are decoded in order. -/
theorem parseUsers_usersBody : ∀ (us : List PanUser) (u : PanUser) (rest : List Tok) (f : Nat),
    us.length + 9 ≤ f →
    parseUsers f (usersBody u us ++ rest) = some ((u :: us).map persisted, rest) := by
  intro us
  induction us with
  | nil =>
    intro u rest f hf
    obtain ⟨k, rfl⟩ : ∃ k, f = k + 1 := ⟨f - 1, by simp at hf; omega⟩
    simp only [usersBody, List.append_assoc, parseUsers]
    rw [parseUser_userToks u _ k (by simp at hf; omega)]
    simp [afterElement]
  | cons v vs ih =>
    intro u rest f hf
    obtain ⟨k, rfl⟩ : ∃ k, f = k + 1 := ⟨f - 1, by omega⟩
    simp only [List.length_cons] at hf
    simp only [usersBody, List.append_assoc, List.cons_append, parseUsers]
    rw [parseUser_userToks u _ k (by omega)]
    simp [afterElement, ih v rest k (by omega)]

theorem usersBody_length (us : List PanUser) : ∀ u, us.length < (usersBody u us).length := by
  induction us with
  | nil => intro u; simp [usersBody, userToks]
  | cons v vs ih =>
    intro u
    have := ih v
    simp only [usersBody, List.length_append, List.length_cons]
    omega

/-- The value of `UserList` written by `usersToks` is decoded by `topField`. -/
theorem topField_usersToks (l : Option (List PanUser)) (rest : List Tok) (a : TopFields)
    (f : Nat) (hf : (usersToks l).length + 9 ≤ f) :
    topField f (codes "UserList") (usersToks l ++ rest) a =
      some ({ a with users := some (l.map (fun us => us.map persisted)) }, rest) := by
  have hk1 : codes "UserList" ≠ codes "ActiveUID" := by decide
  unfold topField
  rw [if_neg hk1, if_pos rfl]
  cases l with
  | none => rfl
  | some us =>
    cases us with
    | nil => rfl
    | cons u us =>
      have hlen := usersBody_length us u
      simp only [usersToks, List.length_cons] at hf
      simp only [usersToks, List.cons_append]
      have hne : ∀ r, ¬ (usersBody u us ++ rest = Tok.rbrack :: r) := by
        intro r h
        cases us <;> simp [usersBody, userToks] at h
      have hp := parseUsers_usersBody us u rest f (by omega)
      cases hb : usersBody u us ++ rest with
      | nil =>
        rw [hb] at hp
        cases f <;> simp [parseUsers, parseUser] at hp
      | cons t ts =>
        rw [hb] at hp
        cases t with
        | rbrack => exact absurd hb (hne ts)
        | _ => simp [hp]

theorem persisted_persisted (u : PanUser) : persisted (persisted u) = persisted u := rfl

theorem parseTopMembers_more (f : Nat) (k : List Nat) (ts ts2 : List Tok) (a a1 : TopFields)
    (h : topField f k ts a = some (a1, Tok.comma :: ts2)) :
    parseTopMembers (f + 1) (Tok.str k :: Tok.colon :: ts) a = parseTopMembers f ts2 a1 := by
  simp [parseTopMembers, topMember, h, afterMember]

theorem parseTopMembers_last (f : Nat) (k : List Nat) (ts ts2 : List Tok) (a a1 : TopFields)
    (h : topField f k ts a = some (a1, Tok.rbrace :: ts2)) :
    parseTopMembers (f + 1) (Tok.str k :: Tok.colon :: ts) a = some (a1, ts2) := by
  simp [parseTopMembers, topMember, h, afterMember]

theorem topField_scalars (f n : Nat) (s : List Nat) (ts : List Tok) (a : TopFields) :
    topField f (codes "ActiveUID") (Tok.num n :: ts) a = some ({ a with ActiveUID := n }, ts) ∧
    topField f (codes "SaveDir") (Tok.str s :: ts) a =
      some ({ a with SaveDir := ofCodes s }, ts) :=
  ⟨rfl, rfl⟩

/-- The document written by `docToks` is decoded to its persisted content,
whatever the fields held before. -/
theorem parseDoc_docToks (d : Document) (a : TopFields) (f : Nat)
    (hf : (docToks d).length ≤ f) :
    parseDoc f (docToks d) a =
      some { ActiveUID := d.ActiveUID,
             users := some (d.UserList.map (fun us => us.map persisted)),
             SaveDir := d.SaveDir } := by
  simp only [docToks, List.length_append, List.length_cons, List.length_nil] at hf
  obtain ⟨k, rfl⟩ : ∃ k, f = k + 3 := ⟨f - 3, by omega⟩
  simp only [docToks, List.cons_append, List.nil_append, List.append_assoc, parseDoc]
  rw [parseTopMembers_more _ _ _ _ _ _ (topField_scalars _ _ [] _ _).1,
    parseTopMembers_more _ _ _ _ _ _ (topField_usersToks d.UserList _ _ _ (by omega)),
    parseTopMembers_last _ _ _ _ _ _ (topField_scalars _ 0 _ _ _).2]
  simp only [ofCodes_codes]

/-- Allocation writes only at the addresses from `next` on. -/
theorem allocUsers_below : ∀ (us : List PanUser) (next : Ptr) (hp : Heap) (p : Ptr),
    p < next → (allocUsers next us hp).2 p = hp p := by
  intro us
  induction us with
  | nil => intro next hp p _; rfl
  | cons u us ih =>
    intro next hp p hlt
    have h1 : p < next + 1 := Nat.lt_succ_of_lt hlt
    have h2 : p ≠ next := Nat.ne_of_lt hlt
    simp only [allocUsers]
    rw [ih (next + 1) _ p h1]
    exact Function.update_noteq h2 _ _

/-- The records read through the allocated addresses are the decoded ones. -/
theorem allocUsers_read : ∀ (us : List PanUser) (next : Ptr) (hp : Heap),
    (allocUsers next us hp).1.map (fun p => (allocUsers next us hp).2 p) = us := by
  intro us
  induction us with
  | nil => intro next hp; rfl
  | cons u us ih =>
    intro next hp
    simp only [allocUsers, List.map_cons]
    rw [ih (next + 1) _, allocUsers_below us (next + 1) _ next (Nat.lt_succ_self next)]
    simp

theorem layout_length (ts : List Tok) : ∀ d prev, ts.length ≤ (layout d prev ts).length := by
  induction ts with
  | nil => intro d prev; simp [layout]
  | cons t ts ih =>
    intro d prev
    have h1 := text_length_pos t
    have h2 := ih (depthAfter d t) (some t)
    simp only [layout, List.length_append, List.length_cons]
    omega

/-- Modelled codec, round trip: decoding the text of a document yields no
error and the persisted content of the document, whatever the structure held
before. -/
theorem UnmarshalData_MarshalIndent (d : Document) (bytes : List Nat)
    (hm : MarshalIndent d = some bytes) (a : Nat) (l : Option (List Ptr)) (s : String)
    (hp : Heap) :
    (UnmarshalData bytes a l s hp).err = false ∧
    (UnmarshalData bytes a l s hp).doc =
      { d with UserList := d.UserList.map (fun us => us.map persisted) } := by
  have hb : bytes = layout 0 none (docToks d) := by
    unfold MarshalIndent at hm
    exact (Option.some.inj hm).symm
  subst hb
  unfold UnmarshalData
  rw [lexToks_layout (docToks d) 0 none _ (by omega)]
  simp only []
  rw [parseDoc_docToks d _ _ (by omega)]
  simp only []
  cases hu : d.UserList with
  | none => simp [Decoded.doc]
  | some us =>
    simp only [Option.map_some', Decoded.doc]
    refine ⟨trivial, ?_⟩
    have hr := allocUsers_read (us.map persisted) (freshAbove (elems l)) hp
    have hr2 : (allocUsers (freshAbove (elems l)) (us.map persisted) hp).1.map
        (fun p => persisted ((allocUsers (freshAbove (elems l)) (us.map persisted) hp).2 p))
        = us.map persisted := by
      have := congrArg (List.map persisted) hr
      simpa [List.map_map, Function.comp_def, persisted_persisted] using this
    rw [hr2]

/-- The document of a store holds persisted records only. -/
theorem docOf_persisted (c : PanConfig) :
    ({ docOf c with UserList := (docOf c).UserList.map (fun us => us.map persisted) } :
      Document) = docOf c := by
  unfold docOf
  cases c.UserList with
  | none => rfl
  | some l => simp [List.map_map, Function.comp_def, persisted_persisted]

/-- The text of a document is not empty. -/
theorem MarshalIndent_ne_nil (d : Document) (bytes : List Nat)
    (hm : MarshalIndent d = some bytes) : bytes ≠ [] := by
  unfold MarshalIndent at hm
  have hb := (Option.some.inj hm).symm
  subst hb
  have := layout_length (docToks d) 0 none
  intro h
  rw [h] at this
  simp [docToks] at this

/-- Loading a file that holds the text of the document of `c`, with the JSON
codec: when the file can be opened, inspected and positioned, `init` succeeds
and the store then holds the document of `c`. -/
theorem init_json_of_saved (h2 : Host) (c c2 : PanConfig) (bytes : List Nat)
    (hm : MarshalIndent (docOf c) = some bytes) (hdisk : c2.disk = bytes)
    (hpath : c2.configFilePath ≠ "")
    (hopen : c2.configFile ≠ none ∨ h2.openFile = OpenResult.ok)
    (hstat : h2.statFails = false) (hseek : h2.seekFails = false) :
    (init (jsonHost h2) c2).1 = Outcome.ok ∧ docOf (init (jsonHost h2) c2).2 = docOf c := by
  have hne : c2.disk ≠ [] := by rw [hdisk]; exact MarshalIndent_ne_nil _ _ hm
  have hi := init_decodes (jsonHost h2) c2 hpath hopen hstat hne hseek
  have hu := UnmarshalData_MarshalIndent (docOf c) bytes hm c2.ActiveUID c2.UserList
    (initDefaultConfig (jsonHost h2) c2).SaveDir c2.heap
  rw [docOf_persisted] at hu
  have hun : (jsonHost h2).unmarshal = UnmarshalData := rfl
  rw [hi, hun, hdisk]
  refine ⟨?_, hu.2⟩
  simp only []
  rw [hu.1]
  rfl

/-- C7: round trip, with the JSON codec.  After a successful `Save` of `c`, a
successful `Reload` of the saved store, and a successful `Init` of a new store
bound to the same path and file, reproduce the document of `c`: the same active
ID, the same save directory and the same sequence of records with the same
persisted field values, for a collection of any size.  The reload and the
fresh initialization do succeed whenever the path is set and the file can be
opened, inspected and positioned. -/
theorem C7_save_reload_roundtrip (h1 h2 : Host) (c : PanConfig)
    (hsave : (Save (jsonHost h1) c).1 = Outcome.ok) :
    ((Reload (jsonHost h2) (Save (jsonHost h1) c).2).1 = Outcome.ok →
      docOf (Reload (jsonHost h2) (Save (jsonHost h1) c).2).2 = docOf c) ∧
    (∀ heap, (Init (jsonHost h2)
        (NewConfig c.configFilePath heap (Save (jsonHost h1) c).2.disk)).1 = Outcome.ok →
      docOf (Init (jsonHost h2)
        (NewConfig c.configFilePath heap (Save (jsonHost h1) c).2.disk)).2 = docOf c) ∧
    (c.configFilePath ≠ "" → h2.statFails = false → h2.seekFails = false →
      (Reload (jsonHost h2) (Save (jsonHost h1) c).2).1 = Outcome.ok) ∧
    (c.configFilePath ≠ "" → h2.openFile = OpenResult.ok → h2.statFails = false →
      h2.seekFails = false → ∀ heap, (Init (jsonHost h2)
        (NewConfig c.configFilePath heap (Save (jsonHost h1) c).2.disk)).1 = Outcome.ok) := by
  obtain ⟨data, hm, hs⟩ := Save_ok (jsonHost h1) c hsave
  have hm2 : MarshalIndent (docOf c) = some data := hm
  have hne : data ≠ [] := MarshalIndent_ne_nil _ _ hm2
  rw [hs]
  refine ⟨?_, ?_, ?_, ?_⟩
  · intro hok
    unfold Reload at hok ⊢
    obtain ⟨hpath, hopen, hstat, hseek⟩ := init_ok_host (jsonHost h2) _ hne hok
    exact (init_json_of_saved h2 c { c with configFile := some data.length, disk := data }
      data hm2 rfl hpath (Or.inl (by simp)) hstat hseek).2
  · intro heap hok
    unfold Init at hok ⊢
    obtain ⟨hpath, hopen, hstat, hseek⟩ := init_ok_host (jsonHost h2) _ hne hok
    exact (init_json_of_saved h2 c (NewConfig c.configFilePath heap data) data hm2 rfl
      hpath hopen hstat hseek).2
  · intro hpath hstat hseek
    unfold Reload
    exact (init_json_of_saved h2 c { c with configFile := some data.length, disk := data }
      data hm2 rfl hpath (Or.inl (by simp)) hstat hseek).1
  · intro hpath hopen hstat hseek heap
    unfold Init
    exact (init_json_of_saved h2 c (NewConfig c.configFilePath heap data) data hm2 rfl
      hpath (Or.inr hopen) hstat hseek).1

/-- Witness for C7 with two users, one user and no user: each store is saved
with the JSON codec; the reload of the saved store succeeds and reproduces its
document, and so does a new store initialized from the file of the first. -/
theorem C7_save_reload_roundtrip_witness :
    (Reload (jsonHost hostEx) (Save (jsonHost hostEx) exSaved).2).1 = Outcome.ok ∧
    docOf (Reload (jsonHost hostEx) (Save (jsonHost hostEx) exSaved).2).2 = docOf exSaved ∧
    docOf (Init (jsonHost hostEx) (NewConfig exSaved.configFilePath (fun _ => PanUser.zero)
      (Save (jsonHost hostEx) exSaved).2.disk)).2 = docOf exSaved ∧
    docOf (Reload (jsonHost hostEx) (Save (jsonHost hostEx) exOneUser).2).2 = docOf exOneUser ∧
    docOf (Reload (jsonHost hostEx) (Save (jsonHost hostEx) exNoUser).2).2 = docOf exNoUser ∧
    ((docOf exSaved).UserList.map List.length) = some 2 ∧
    ((docOf exOneUser).UserList.map List.length) = some 1 ∧
    (docOf exNoUser).UserList = none :=
  have h2 := C7_save_reload_roundtrip hostEx hostEx exSaved (by decide)
  have h1 := C7_save_reload_roundtrip hostEx hostEx exOneUser (by decide)
  have h0 := C7_save_reload_roundtrip hostEx hostEx exNoUser (by decide)
  have hok2 := h2.2.2.1 (by decide) rfl rfl
  ⟨hok2, h2.1 hok2,
   h2.2.1 (fun _ => PanUser.zero) (h2.2.2.2 (by decide) rfl rfl rfl (fun _ => PanUser.zero)),
   h1.1 (h1.2.2.1 (by decide) rfl rfl), h0.1 (h0.2.2.1 (by decide) rfl rfl),
   by decide, by decide, by decide⟩

/-- The file calls do not write the cached active user. -/
theorem file_calls_keep_activeUser (h : Host) (c : PanConfig) (n : Nat) (data : List Nat) :
    (fileTruncate c n).activeUser = c.activeUser ∧
    (fileSeekStart c).activeUser = c.activeUser ∧
    (fileWrite c data).activeUser = c.activeUser ∧
    (lazyOpenConfigFile h c).2.activeUser = c.activeUser := by
  obtain ⟨aid, ul, sd, path, cf, au, hp, dk⟩ := c
  unfold fileTruncate fileSeekStart fileWrite lazyOpenConfigFile
  cases cf <;> cases h.openFile <;> exact ⟨rfl, rfl, rfl, rfl⟩

/-- No path of `Save` writes the cached active user. -/
theorem Save_keeps_activeUser (h : Host) (c : PanConfig) :
    (Save h c).2.activeUser = c.activeUser := by
  have hopen := (file_calls_keep_activeUser h c 0 []).2.2.2
  unfold Save fix
  cases hl : lazyOpenConfigFile h c with
  | mk e c1 =>
    rw [hl] at hopen
    simp only [] at hopen
    cases e with
    | some e => exact hopen
    | none =>
      simp only []
      cases h.marshal (docOf c1) with
      | none => exact hopen
      | some data =>
        simp only []
        split
        · exact hopen
        · split
          · rw [(file_calls_keep_activeUser h c1 data.length []).1]; exact hopen
          · cases h.writeFails with
            | some k =>
              simp only []
              rw [(file_calls_keep_activeUser h _ 0 (data.take k)).2.2.1,
                (file_calls_keep_activeUser h _ 0 []).2.1,
                (file_calls_keep_activeUser h c1 data.length []).1]
              exact hopen
            | none =>
              simp only []
              rw [(file_calls_keep_activeUser h _ 0 data).2.2.1,
                (file_calls_keep_activeUser h _ 0 []).2.1,
                (file_calls_keep_activeUser h c1 data.length []).1]
              exact hopen

/-- No path of `init`, hence of `Init` and `Reload`, writes the cached active
user: a handle cached before a `Reload` is still cached after it. -/
theorem init_keeps_activeUser (h : Host) (c : PanConfig) :
    (init h c).2.activeUser = c.activeUser := by
  unfold init
  split
  · rfl
  · rw [initDefaultConfig_frame h c]
    generalize (initDefaultConfig h c).SaveDir = sd
    have hopen := (file_calls_keep_activeUser h { c with SaveDir := sd } 0 []).2.2.2
    unfold loadConfigFromFile
    cases hl : lazyOpenConfigFile h { c with SaveDir := sd } with
    | mk e c1 =>
      rw [hl] at hopen
      simp only [] at hopen
      cases e with
      | some e => exact hopen
      | none =>
        simp only []
        split
        · exact hopen
        · split
          · rw [Save_keeps_activeUser]; exact hopen
          · split
            · exact hopen
            · have hseek := (file_calls_keep_activeUser h c1 0 []).2.1
              split
              · simp only []; rw [hseek]; exact hopen
              · simp only []; rw [hseek]; exact hopen

/-- C8 fails on the code: `exSwitched` was initialized from the file, resolved
its active user and then switched to account 200 without saving.  `Reload`
succeeds and brings the active ID, the collection and the save directory to
those of a store freshly initialized from the same file, with active ID 100,
but the next `ActiveUser` still returns the record of account 200 cached before
the `Reload`, whereas the fresh store resolves the record of account 100. -/
theorem C8_reload_keeps_cached_user :
    (Reload hostEx exSwitched).1 = Outcome.ok ∧
    (Init hostEx exFresh).1 = Outcome.ok ∧
    exSwitched.disk = exFresh.disk ∧
    exSwitched.ActiveUID = 200 ∧
    (Reload hostEx exSwitched).2.ActiveUID = 100 ∧
    (Init hostEx exFresh).2.ActiveUID = 100 ∧
    (Reload hostEx exSwitched).2.UserList = (Init hostEx exFresh).2.UserList ∧
    (Reload hostEx exSwitched).2.SaveDir = (Init hostEx exFresh).2.SaveDir ∧
    (ActiveUser envOk (Reload hostEx exSwitched).2).1 = UserRef.record 1 ∧
    ((Reload hostEx exSwitched).2.heap 1).UID = 200 ∧
    (ActiveUser envOk (Init hostEx exFresh).2).1 = UserRef.record 0 ∧
    ((Init hostEx exFresh).2.heap 0).UID = 100 := by
  decide

/-! ## The rename command -/

/-- The report keeps the events issued before it. -/
theorem renameReport_keeps (env : RenameEnv) (oldName newName : String) (t : List Event)
    (r : Option (Option FileEntity × Option String)) :
    ∀ e ∈ t, e ∈ (renameReport env oldName newName t r).1 := by
  intro e he
  unfold renameReport
  split
  · exact he
  · exact List.mem_append_left _ he
  · exact List.mem_append_left _ he
  · exact List.mem_append_left _ he

/-- C9: every remote rename call issued by `RunRename` (family or personal)
is issued in an invocation in which both names are non-empty, the normalized
old and new paths have the same parent directory, the new base name passed the
name validation, and the lookup of the old path was issued and returned a file
identity without an error; and when a name is empty or the parent directories
differ, neither the path lookup nor a rename call is issued. -/
theorem C9_rename_guarded (env : RenameEnv) (familyId : Int) (oldName newName : String) :
    (∀ e ∈ (RunRename env familyId oldName newName).1, e.isRename = true →
      oldName ≠ "" ∧ newName ≠ "" ∧
      ∃ o n p fileId,
        env.PathJoin familyId (env.TrimSpace oldName) = some o ∧
        env.PathJoin familyId (env.TrimSpace newName) = some n ∧
        env.Dir o = env.Dir n ∧
        env.CheckFileNameValid (env.Base n) = true ∧
        env.PathJoin familyId o = some p ∧
        Event.fileInfoByPath familyId p ∈ (RunRename env familyId oldName newName).1 ∧
        env.AppFileInfoByPath familyId p = some (some fileId, none)) ∧
    ((oldName = "" ∨ newName = "" ∨
        ∃ o n, env.PathJoin familyId (env.TrimSpace oldName) = some o ∧
          env.PathJoin familyId (env.TrimSpace newName) = some n ∧ env.Dir o ≠ env.Dir n) →
      ∀ e ∈ (RunRename env familyId oldName newName).1,
        e.isRename = false ∧ e.isLookup = false) := by
  unfold RunRename
  by_cases h1 : oldName = ""
  · simp [h1, Event.isRename, Event.isLookup]
  by_cases h2 : newName = ""
  · simp [h1, h2, Event.isRename, Event.isLookup]
  rw [if_neg h1, if_neg h2]
  cases ho : env.PathJoin familyId (env.TrimSpace oldName) with
  | none => simp [h1, h2, Event.isRename, Event.isLookup]
  | some o =>
    cases hn : env.PathJoin familyId (env.TrimSpace newName) with
    | none => simp [h1, h2, Event.isRename, Event.isLookup]
    | some n =>
      simp only []
      by_cases hd : env.Dir o = env.Dir n
      · have hd2 : ¬ (env.Dir o ≠ env.Dir n) := fun h => h hd
        rw [if_neg hd2]
        refine ⟨?_, ?_⟩
        swap
        · rintro (h | h | ⟨o2, n2, ho2, hn2, hne⟩)
          · exact absurd h h1
          · exact absurd h h2
          · cases ho2; cases hn2; exact absurd hd hne
        cases hv : env.CheckFileNameValid (env.Base n) with
        | false => simp [Event.isRename]
        | true =>
          simp only [Bool.not_true, Bool.false_eq_true, if_false]
          cases hp : env.PathJoin familyId o with
          | none => simp [Event.isRename]
          | some p =>
            simp only []
            cases hl : env.AppFileInfoByPath familyId p with
            | none => simp [Event.isRename]
            | some r =>
              obtain ⟨fid, err⟩ := r
              cases err with
              | some err => simp [Event.isRename]
              | none =>
                cases fid with
                | none => simp [Event.isRename]
                | some fileId =>
                  simp only []
                  intro e he hren
                  refine ⟨h1, h2, o, n, p, fileId, rfl, rfl, hd, hv, hp, ?_, hl⟩
                  split
                  · exact renameReport_keeps env _ _ _ _ _ (by simp)
                  · exact renameReport_keeps env _ _ _ _ _ (by simp)
      · rw [if_pos hd]
        simp [Event.isRename, Event.isLookup]

/-- Witness for C9, the scenarios of the specification: renaming `/docs/a.txt`
to `/other/b.txt` issues neither a lookup nor a rename, while renaming it to
`/docs/b.txt` looks the old path up and issues the personal rename. -/
theorem C9_rename_guarded_witness :
    (∀ e ∈ (RunRename exRenameEnv 0 "/docs/a.txt" "/other/b.txt").1,
      e.isRename = false ∧ e.isLookup = false) ∧
    (RunRename exRenameEnv 0 "/docs/a.txt" "/other/b.txt").1 =
      [Event.getActiveUser, Event.print "只能命名同一个目录的文件\n"] ∧
    Event.personalRename "f1" "b.txt" ∈ (RunRename exRenameEnv 0 "/docs/a.txt" "/docs/b.txt").1 ∧
    exRenameEnv.AppFileInfoByPath 0 "/docs/a.txt" = some (some "f1", none) :=
  ⟨(C9_rename_guarded exRenameEnv 0 "/docs/a.txt" "/other/b.txt").2
      (Or.inr (Or.inr ⟨"/docs/a.txt", "/other/b.txt", rfl, rfl, by decide⟩)),
   by decide, by decide, rfl⟩

end PanConfigModel
